import Mathlib

/-!
# Multi-walled carbon nanotube lattice generator

A shallow embedding of `createMultiWalledNanotube` and of the bond tag that
`display` re-derives (`src/Main.cpp`), followed by theorems about the generated
atom and bond sequences.

Modelling conventions:

* `int` values are `Int`; the truncating `/` and `%` of C++ are `Int.tdiv` and
  `Int.tmod`.  The parameters are assumed to lie in the range where the index
  arithmetic does not leave `int` (signed overflow is undefined in C++).
* `float` arithmetic is read over a field `F`; the constants `PI`, `SQRT3` and
  the library functions `cos`, `sin` are supplied by a `Numerics F` record.
* The two global vectors `atoms` and `bonds` form the state `Globals F`;
  every operation on them is explicit state passing.
* The parameters, file-level constants in the source, are the fields of
  `Params F`.
-/

set_option linter.unusedTactic false
set_option linter.unreachableTactic false
set_option linter.unnecessarySeqFocus false

namespace MWCNT

/-! ## Data model -/

/-- The source's `struct Point3D`. -/
structure Point3D (F : Type) where
  x : F
  y : F
  z : F

/-- The numeric constants and library functions the generator uses. -/
structure Numerics (F : Type) where
  PI : F
  SQRT3 : F
  cos : F → F
  sin : F → F

/-- The structural parameters (lines 15-20 of the source). -/
structure Params (F : Type) where
  layers : Int
  n : Int
  a : F
  bondLength : F
  interlayerDistance : F
  lengthSegments : Int

/-- The global vectors `atoms` and `bonds` (lines 22-23 of the source). -/
structure Globals (F : Type) where
  atoms : List (Point3D F)
  bonds : List (Int × Int)

/-- The call `atoms.emplace_back(x, y, z)`. -/
def pushAtom {F : Type} (s : Globals F) (p : Point3D F) : Globals F :=
  { s with atoms := s.atoms ++ [p] }

/-- The call `bonds.emplace_back(u, v)`. -/
def pushBond {F : Type} (s : Globals F) (b : Int × Int) : Globals F :=
  { s with bonds := s.bonds ++ [b] }

/-! ## Loops -/

/-- The loop `for (int i = i0; i < hi; ++i) body`, started at `i`. -/
def forInc {σ : Type} (hi : Int) (body : Int → σ → σ) (i : Int) (s : σ) : σ :=
  if h : i < hi then forInc hi body (i + 1) (body i s) else s
termination_by (hi - i).toNat
decreasing_by omega

/-- The loop `for (int i = i0; i < hi; i += 2) body`, started at `i`. -/
def forInc2 {σ : Type} (hi : Int) (body : Int → σ → σ) (i : Int) (s : σ) : σ :=
  if h : i < hi then forInc2 hi body (i + 2) (body i s) else s
termination_by (hi - i).toNat
decreasing_by omega

/-! ## Atom position synthesis (lines 29-55) -/

/-- The value `layerRadius` of line 30. -/
def layerRadius {F : Type} [Field F] (c : Numerics F) (p : Params F) (layer : Int) : F :=
  ((p.n : F) * p.a) / (2 * c.PI) + (layer : F) * p.interlayerDistance

/-- The value `scaledA` of lines 31-32. -/
def scaledA {F : Type} [Field F] (c : Numerics F) (p : Params F) (layer : Int) : F :=
  let layerCircumference := 2 * c.PI * layerRadius c p layer
  layerCircumference / (p.n : F)

/-- The point computed by lines 36-50 for layer `layer`, segment `i`, site `j`. -/
def atomAt {F : Type} [Field F] (c : Numerics F) (p : Params F) (layer i j : Int) :
    Point3D F :=
  let x_sheet : F :=
    if Int.tmod j 2 = 0 then ((Int.tdiv j 2 : Int) : F) * scaledA c p layer
    else ((Int.tdiv j 2 : Int) : F) * scaledA c p layer + scaledA c p layer / 2
  let y_sheet : F :=
    if Int.tmod j 2 = 0 then (i : F) * (c.SQRT3 * p.bondLength)
    else (i : F) * (c.SQRT3 * p.bondLength) + p.bondLength * c.SQRT3 / 2
  let theta := x_sheet / layerRadius c p layer
  let x := layerRadius c p layer * c.cos theta
  let y := layerRadius c p layer * c.sin theta
  let z := y_sheet - ((p.lengthSegments : F) * c.SQRT3 * p.bondLength) / 2
  ⟨x, y, z⟩

/-- The first loop nest (lines 29-55). -/
def atomPass {F : Type} [Field F] (c : Numerics F) (p : Params F) (s : Globals F) :
    Globals F :=
  forInc p.layers (fun layer s =>
    forInc p.lengthSegments (fun i s =>
      forInc (2 * p.n) (fun j s => pushAtom s (atomAt c p layer i j)) 0 s) 0 s) 0 s

/-! ## Intralayer bond synthesis (lines 58-91) -/

/-- The body of the innermost loop, lines 63-88. -/
def intraSite {F : Type} (p : Params F) (layerOffset i j : Int) (s : Globals F) :
    Globals F :=
  let current := layerOffset + i * 2 * p.n + j
  let s :=
    if Int.tmod j 2 = 0 then
      if j < 2 * p.n - 1 then pushBond s (current, current + 1) else s
    else
      let next := if j = 2 * p.n - 1 then current - (2 * p.n - 1) else current + 1
      pushBond s (current, next)
  if i < p.lengthSegments - 1 then
    if Int.tmod j 2 = 0 then
      pushBond s (current, current + 2 * p.n)
    else
      let s := pushBond s (current, current + 2 * p.n - 1)
      if j < 2 * p.n - 1 then pushBond s (current, current + 2 * p.n + 1)
      else pushBond s (current, current + 1)
  else s

/-- The second loop nest (lines 58-91). -/
def intralayerPass {F : Type} (p : Params F) (s : Globals F) : Globals F :=
  forInc p.layers (fun layer s =>
    let layerOffset := layer * p.lengthSegments * 2 * p.n
    forInc p.lengthSegments (fun i s =>
      forInc (2 * p.n) (fun j s => intraSite p layerOffset i j s) 0 s) 0 s) 0 s

/-! ## Interlayer bond synthesis (lines 94-109) -/

/-- The guarded third loop nest (lines 94-109). -/
def interlayerPass {F : Type} (p : Params F) (s : Globals F) : Globals F :=
  if p.layers > 1 then
    forInc (p.layers - 1) (fun layer s =>
      let outerOffset := (layer + 1) * p.lengthSegments * 2 * p.n
      let innerOffset := layer * p.lengthSegments * 2 * p.n
      forInc2 p.lengthSegments (fun i s =>
        forInc2 (2 * p.n) (fun j s =>
          let innerAtom := innerOffset + i * 2 * p.n + j
          let outerAtom := outerOffset + i * 2 * p.n + j
          pushBond s (innerAtom, outerAtom)) 0 s) 0 s) 0 s
  else s

/-! ## The generator (lines 25-110) -/

/-- The function `createMultiWalledNanotube`: clear both vectors, then run the
three passes. -/
def createMultiWalledNanotube {F : Type} [Field F] (c : Numerics F) (p : Params F)
    (s : Globals F) : Globals F :=
  let s := { s with atoms := [] }
  let s := { s with bonds := [] }
  let s := atomPass c p s
  let s := intralayerPass p s
  interlayerPass p s

/-! ## The consumer's bond tag (lines 231-232) -/

/-- The flag `interlayer` that `display` derives for a bond. -/
def isInterlayer {F : Type} (p : Params F) (bond : Int × Int) : Bool :=
  let atomsPerLayer := p.lengthSegments * 2 * p.n
  Int.tdiv bond.1 atomsPerLayer != Int.tdiv bond.2 atomsPerLayer

/-! ## Auxiliary definitions used in the statements -/

/-- The empty state. -/
def emptyGlobals (F : Type) : Globals F := ⟨[], []⟩

/-- The flat index of (layer, segment, site), written as the source writes it. -/
def flatIndex {F : Type} (p : Params F) (layer i j : Int) : Int :=
  layer * p.lengthSegments * 2 * p.n + i * 2 * p.n + j

/-- The values taken by the counter of `for (k = lo; k < hi; ++k)`. -/
def upTo (lo hi : Int) : List Int :=
  (List.range (hi - lo).toNat).map (fun (k : Nat) => lo + (k : Int))

/-- The values taken by the counter of `for (k = lo; k < hi; k += 2)`. -/
def upTo2 (lo hi : Int) : List Int :=
  (List.range ((hi - lo + 1) / 2).toNat).map (fun (k : Nat) => lo + 2 * (k : Int))

/-- The bonds the loop body emits at one site, in emission order. -/
def siteBonds {F : Type} (p : Params F) (layer i j : Int) : List (Int × Int) :=
  (intraSite p (layer * p.lengthSegments * 2 * p.n) i j (emptyGlobals F)).bonds

/-- The bonds emitted by the intralayer pass, in emission order. -/
def intraBonds {F : Type} (p : Params F) : List (Int × Int) :=
  (intralayerPass p (emptyGlobals F)).bonds

/-- The bonds emitted by the interlayer pass, in emission order. -/
def interBonds {F : Type} (p : Params F) : List (Int × Int) :=
  (interlayerPass p (emptyGlobals F)).bonds

/-- Whether the bond `b` has `c` as first or second index. -/
def touches (c : Int) (b : Int × Int) : Bool :=
  decide (b.1 = c) || decide (b.2 = c)

/-- The number of bonds of `bs` that have `c` as first or second index. -/
def degree (bs : List (Int × Int)) (c : Int) : Nat :=
  bs.countP (touches c)

/-- The (layer, segment, site) triples in loop order. -/
def sites {F : Type} (p : Params F) : List (Int × Int × Int) :=
  (upTo 0 p.layers).flatMap (fun layer =>
    (upTo 0 p.lengthSegments).flatMap (fun i =>
      (upTo 0 (2 * p.n)).map (fun j => (layer, i, j))))

/-- The sites whose bonds reach the atom at `(L, i, j)` of an inner segment. -/
def sources {F : Type} (p : Params F) (L i j : Int) : List (Int × Int × Int) :=
  if j % 2 = 0 then
    [(L, i - 1, j), (L, i - 1, j + 1), (L, i - 1, if j = 0 then 2 * p.n - 1 else j - 1),
     (L, i, if j = 0 then 2 * p.n - 1 else j - 1), (L, i, j)]
  else [(L, i, j - 1), (L, i, j)]

/-- Several `atoms.emplace_back` calls in a row. -/
def appendAtoms {F : Type} (s : Globals F) (l : List (Point3D F)) : Globals F :=
  { s with atoms := s.atoms ++ l }

/-- Several `bonds.emplace_back` calls in a row. -/
def appendBonds {F : Type} (s : Globals F) (l : List (Int × Int)) : Globals F :=
  { s with bonds := s.bonds ++ l }

/-- The atoms in generation order: layer, then segment, then site. -/
def atomList {F : Type} [Field F] (c : Numerics F) (p : Params F) : List (Point3D F) :=
  (upTo 0 p.layers).flatMap (fun layer =>
    (upTo 0 p.lengthSegments).flatMap (fun i =>
      (upTo 0 (2 * p.n)).map (fun j => atomAt c p layer i j)))

/-- The intralayer bonds as a nested comprehension over the loop counters. -/
def intraList {F : Type} (p : Params F) : List (Int × Int) :=
  (upTo 0 p.layers).flatMap (fun layer =>
    (upTo 0 p.lengthSegments).flatMap (fun i =>
      (upTo 0 (2 * p.n)).flatMap (fun j => siteBonds p layer i j)))

/-- The interlayer bonds between layers `layer` and `layer + 1`, as a comprehension
over the two stride-2 loop counters. -/
def pairBonds {F : Type} (p : Params F) (layer : Int) : List (Int × Int) :=
  (upTo2 0 p.lengthSegments).flatMap (fun i =>
    (upTo2 0 (2 * p.n)).map (fun j =>
      (flatIndex p layer i j, flatIndex p (layer + 1) i j)))

/-- The interlayer bonds as a nested comprehension over the loop counters. -/
def interList {F : Type} (p : Params F) : List (Int × Int) :=
  if p.layers > 1 then (upTo 0 (p.layers - 1)).flatMap (fun layer => pairBonds p layer)
  else []

/-- The (segment, site) pairs that the bonds emitted at site `(i, j)` lead to,
in emission order. -/
def siteTargets {F : Type} (p : Params F) (i j : Int) : List (Int × Int) :=
  (if j % 2 = 0 then [(i, j + 1)]
   else if j = 2 * p.n - 1 then [(i, 0)] else [(i, j + 1)]) ++
  (if i < p.lengthSegments - 1 then
     (if j % 2 = 0 then [(i + 1, j)]
      else if j < 2 * p.n - 1 then [(i + 1, j - 1), (i + 1, j + 1)]
      else [(i + 1, j - 1), (i + 1, 0)])
   else [])

/-- The atom that the specification describes for (layer `L`, segment `i`, site `j`):
written from the specification's formula, to be compared with `atomAt`. -/
def specAtom {F : Type} [Field F] (c : Numerics F) (p : Params F) (L i j : Int) :
    Point3D F :=
  let R : F := ((p.n : F) * p.a) / (2 * c.PI) + (L : F) * p.interlayerDistance
  let scaledA : F := 2 * c.PI * R / (p.n : F)
  let x_sheet : F := ((j / 2 : Int) : F) * scaledA + (if j % 2 = 1 then scaledA / 2 else 0)
  let y_sheet : F :=
    (i : F) * c.SQRT3 * p.bondLength + (if j % 2 = 1 then p.bondLength * c.SQRT3 / 2 else 0)
  let theta : F := x_sheet / R
  ⟨R * c.cos theta, R * c.sin theta,
    y_sheet - (p.lengthSegments : F) * c.SQRT3 * p.bondLength / 2⟩

/-! ## Loop lemmas -/

theorem forInc_lt {σ : Type} (hi : Int) (body : Int → σ → σ) (i : Int) (s : σ)
    (h : i < hi) : forInc hi body i s = forInc hi body (i + 1) (body i s) := by
  rw [forInc]; simp [h]

theorem forInc_ge {σ : Type} (hi : Int) (body : Int → σ → σ) (i : Int) (s : σ)
    (h : hi ≤ i) : forInc hi body i s = s := by
  rw [forInc]; simp [not_lt.mpr h]

theorem forInc2_lt {σ : Type} (hi : Int) (body : Int → σ → σ) (i : Int) (s : σ)
    (h : i < hi) : forInc2 hi body i s = forInc2 hi body (i + 2) (body i s) := by
  rw [forInc2]; simp [h]

theorem forInc2_ge {σ : Type} (hi : Int) (body : Int → σ → σ) (i : Int) (s : σ)
    (h : hi ≤ i) : forInc2 hi body i s = s := by
  rw [forInc2]; simp [not_lt.mpr h]

theorem upTo_ge (lo hi : Int) (h : hi ≤ lo) : upTo lo hi = [] := by
  have : (hi - lo).toNat = 0 := by omega
  simp [upTo, this]

theorem upTo_lt (lo hi : Int) (h : lo < hi) : upTo lo hi = lo :: upTo (lo + 1) hi := by
  have : (hi - lo).toNat = (hi - (lo + 1)).toNat + 1 := by omega
  simp only [upTo, this, List.range_succ_eq_map, List.map_cons, List.map_map]
  simp only [Nat.cast_zero, add_zero, List.cons.injEq, true_and]
  apply List.map_congr_left
  intro k _
  simp only [Function.comp, Nat.cast_succ]
  ring

theorem upTo2_ge (lo hi : Int) (h : hi ≤ lo) : upTo2 lo hi = [] := by
  have : ((hi - lo + 1) / 2).toNat = 0 := by omega
  simp [upTo2, this]

theorem upTo2_lt (lo hi : Int) (h : lo < hi) :
    upTo2 lo hi = lo :: upTo2 (lo + 2) hi := by
  have : ((hi - lo + 1) / 2).toNat = ((hi - (lo + 2) + 1) / 2).toNat + 1 := by omega
  simp only [upTo2, this, List.range_succ_eq_map, List.map_cons, List.map_map]
  simp only [Nat.cast_zero, mul_zero, add_zero, List.cons.injEq, true_and]
  apply List.map_congr_left
  intro k _
  simp only [Function.comp, Nat.cast_succ]
  ring

/-- A counted loop is the left fold of its body over the counter values. -/
theorem forInc_eq_foldl {σ : Type} (hi : Int) (body : Int → σ → σ) :
    ∀ (m : Nat) (i : Int) (s : σ), (hi - i).toNat = m →
      forInc hi body i s = (upTo i hi).foldl (fun s k => body k s) s := by
  intro m
  induction m with
  | zero =>
    intro i s hm
    rw [forInc_ge _ _ _ _ (by omega), upTo_ge _ _ (by omega)]; rfl
  | succ m ih =>
    intro i s hm
    rw [forInc_lt _ _ _ _ (by omega), upTo_lt _ _ (by omega), ih _ _ (by omega)]; rfl

/-- A stride-2 loop is the left fold of its body over the counter values. -/
theorem forInc2_eq_foldl {σ : Type} (hi : Int) (body : Int → σ → σ) :
    ∀ (m : Nat) (i : Int) (s : σ), (hi - i).toNat ≤ m →
      forInc2 hi body i s = (upTo2 i hi).foldl (fun s k => body k s) s := by
  intro m
  induction m with
  | zero =>
    intro i s hm
    rw [forInc2_ge _ _ _ _ (by omega), upTo2_ge _ _ (by omega)]; rfl
  | succ m ih =>
    intro i s hm
    by_cases h : i < hi
    · rw [forInc2_lt _ _ _ _ h, upTo2_lt _ _ h, ih _ _ (by omega)]; rfl
    · rw [forInc2_ge _ _ _ _ (by omega), upTo2_ge _ _ (by omega)]; rfl

/-- A fold whose body appends a list to the state appends the concatenation. -/
theorem foldl_push {σ β : Type} (push : σ → List β → σ)
    (h0 : ∀ s, push s [] = s)
    (h1 : ∀ s l l', push (push s l) l' = push s (l ++ l'))
    (body : Int → σ → σ) (g : Int → List β)
    (hb : ∀ k s, body k s = push s (g k)) :
    ∀ (l : List Int) (s : σ),
      l.foldl (fun s k => body k s) s = push s (l.flatMap g) := by
  intro l
  induction l with
  | nil => intro s; simp [h0]
  | cons k l ih =>
    intro s
    simp only [List.foldl_cons, List.flatMap_cons]
    rw [ih, hb, h1]

theorem forInc_push {σ β : Type} (push : σ → List β → σ)
    (h0 : ∀ s, push s [] = s)
    (h1 : ∀ s l l', push (push s l) l' = push s (l ++ l'))
    (hi : Int) (body : Int → σ → σ) (g : Int → List β)
    (hb : ∀ k s, body k s = push s (g k)) (i : Int) (s : σ) :
    forInc hi body i s = push s ((upTo i hi).flatMap g) := by
  rw [forInc_eq_foldl hi body _ i s rfl, foldl_push push h0 h1 body g hb]

theorem forInc2_push {σ β : Type} (push : σ → List β → σ)
    (h0 : ∀ s, push s [] = s)
    (h1 : ∀ s l l', push (push s l) l' = push s (l ++ l'))
    (hi : Int) (body : Int → σ → σ) (g : Int → List β)
    (hb : ∀ k s, body k s = push s (g k)) (i : Int) (s : σ) :
    forInc2 hi body i s = push s ((upTo2 i hi).flatMap g) := by
  rw [forInc2_eq_foldl hi body _ i s (le_refl _), foldl_push push h0 h1 body g hb]

theorem appendBonds_nil {F : Type} (s : Globals F) : appendBonds s [] = s := by
  simp [appendBonds]

theorem appendBonds_append {F : Type} (s : Globals F) (l l' : List (Int × Int)) :
    appendBonds (appendBonds s l) l' = appendBonds s (l ++ l') := by
  simp [appendBonds]

theorem appendAtoms_nil {F : Type} (s : Globals F) : appendAtoms s [] = s := by
  simp [appendAtoms]

theorem appendAtoms_append {F : Type} (s : Globals F) (l l' : List (Point3D F)) :
    appendAtoms (appendAtoms s l) l' = appendAtoms s (l ++ l') := by
  simp [appendAtoms]

/-! ## The passes as list comprehensions -/

theorem atomPass_eq {F : Type} [Field F] (c : Numerics F) (p : Params F) (s : Globals F) :
    atomPass c p s = appendAtoms s (atomList c p) := by
  unfold atomPass atomList
  refine forInc_push appendAtoms appendAtoms_nil appendAtoms_append _ _ _ ?_ 0 s
  intro layer s
  refine forInc_push appendAtoms appendAtoms_nil appendAtoms_append _ _ _ ?_ 0 s
  intro i s
  refine (forInc_push appendAtoms appendAtoms_nil appendAtoms_append _ _
    (fun j => [atomAt c p layer i j]) (fun j s => rfl) 0 s).trans ?_
  congr 1
  induction (upTo 0 (2 * p.n)) with
  | nil => rfl
  | cons a l ih => simp [List.flatMap_cons, ih]

theorem intraSite_eq {F : Type} (p : Params F) (layer i j : Int) (s : Globals F) :
    intraSite p (layer * p.lengthSegments * 2 * p.n) i j s
      = appendBonds s (siteBonds p layer i j) := by
  unfold siteBonds intraSite
  split_ifs <;> simp [pushBond, appendBonds, emptyGlobals]

theorem intralayerPass_eq {F : Type} (p : Params F) (s : Globals F) :
    intralayerPass p s = appendBonds s (intraList p) := by
  unfold intralayerPass intraList
  refine forInc_push appendBonds appendBonds_nil appendBonds_append _ _ _ ?_ 0 s
  intro layer s
  refine forInc_push appendBonds appendBonds_nil appendBonds_append _ _ _ ?_ 0 s
  intro i s
  exact forInc_push appendBonds appendBonds_nil appendBonds_append _ _ _
    (fun j s => intraSite_eq p layer i j s) 0 s

theorem interlayerPass_eq {F : Type} (p : Params F) (s : Globals F) :
    interlayerPass p s = appendBonds s (interList p) := by
  unfold interlayerPass interList pairBonds
  split_ifs with h
  · refine forInc_push appendBonds appendBonds_nil appendBonds_append _ _ _ ?_ 0 s
    intro layer s
    refine forInc2_push appendBonds appendBonds_nil appendBonds_append _ _ _ ?_ 0 s
    intro i s
    refine (forInc2_push appendBonds appendBonds_nil appendBonds_append _ _
      (fun j => [(flatIndex p layer i j, flatIndex p (layer + 1) i j)])
      (fun j s => rfl) 0 s).trans ?_
    congr 1
    induction (upTo2 0 (2 * p.n)) with
    | nil => rfl
    | cons a l ih => simp [List.flatMap_cons, ih]
  · exact (appendBonds_nil s).symm

theorem intraBonds_eq {F : Type} (p : Params F) : intraBonds p = intraList p := by
  simp [intraBonds, intralayerPass_eq, appendBonds, emptyGlobals]

theorem interBonds_eq {F : Type} (p : Params F) : interBonds p = interList p := by
  simp [interBonds, interlayerPass_eq, appendBonds, emptyGlobals]

/-- The generator's result, whatever the vectors held before. -/
theorem create_eq {F : Type} [Field F] (c : Numerics F) (p : Params F) (s : Globals F) :
    createMultiWalledNanotube c p s = ⟨atomList c p, intraList p ++ interList p⟩ := by
  simp [createMultiWalledNanotube, atomPass_eq, intralayerPass_eq, interlayerPass_eq,
    appendBonds, appendAtoms]

/-! ## Counter values -/

theorem mem_upTo (lo hi k : Int) : k ∈ upTo lo hi ↔ lo ≤ k ∧ k < hi := by
  simp only [upTo, List.mem_map, List.mem_range]
  constructor
  · rintro ⟨a, ha, rfl⟩
    omega
  · intro h
    exact ⟨(k - lo).toNat, by omega, by omega⟩

theorem mem_upTo2 (lo hi k : Int) :
    k ∈ upTo2 lo hi ↔ lo ≤ k ∧ k < hi ∧ (k - lo) % 2 = 0 := by
  simp only [upTo2, List.mem_map, List.mem_range]
  constructor
  · rintro ⟨a, ha, rfl⟩
    omega
  · intro h
    exact ⟨((k - lo) / 2).toNat, by omega, by omega⟩

theorem length_upTo (lo hi : Int) : (upTo lo hi).length = (hi - lo).toNat := by
  simp [upTo]

theorem length_upTo2 (lo hi : Int) : (upTo2 lo hi).length = ((hi - lo + 1) / 2).toNat := by
  simp [upTo2]

theorem nodup_upTo (lo hi : Int) : (upTo lo hi).Nodup := by
  unfold upTo
  refine List.Nodup.map ?_ (List.nodup_range _)
  intro a b h
  simp only at h
  omega

theorem getElem?_upTo_zero (hi : Int) (a : Nat) (h : (a : Int) < hi) :
    (upTo 0 hi)[a]? = some (a : Int) := by
  have : a < hi.toNat := by omega
  simp [upTo, List.getElem?_range this]

/-! ## Truncating division on non-negative operands -/

theorem tmod_two_eq_zero (j : Int) : Int.tmod j 2 = 0 ↔ j % 2 = 0 := by
  rw [← Int.dvd_iff_tmod_eq_zero]
  omega

/-! ## Mixed-radix arithmetic of the flat index -/

theorem radix_inj (M a b a' b' : Int) (hb : 0 ≤ b) (hbM : b < M) (hb' : 0 ≤ b')
    (hb'M : b' < M) (h : a * M + b = a' * M + b') : a = a' ∧ b = b' := by
  have key : (a' - a) * M = b - b' := by linarith
  have ha : a = a' := by
    rcases lt_trichotomy a a' with hlt | heq | hgt
    · exfalso
      have : M ≤ (a' - a) * M := by nlinarith
      linarith
    · exact heq
    · exfalso
      have : (a' - a) * M ≤ -M := by nlinarith
      linarith
  subst ha
  exact ⟨rfl, by linarith⟩

theorem flatIndex_eq {F : Type} (p : Params F) (layer i j : Int) :
    flatIndex p layer i j = (layer * p.lengthSegments + i) * (2 * p.n) + j := by
  unfold flatIndex; ring

theorem flatIndex_inj {F : Type} (p : Params F) (L i j L' i' j' : Int)
    (hi : 0 ≤ i) (hi' : i < p.lengthSegments) (hj : 0 ≤ j) (hj' : j < 2 * p.n)
    (hk : 0 ≤ i') (hk' : i' < p.lengthSegments) (hl : 0 ≤ j') (hl' : j' < 2 * p.n)
    (h : flatIndex p L i j = flatIndex p L' i' j') : L = L' ∧ i = i' ∧ j = j' := by
  rw [flatIndex_eq, flatIndex_eq] at h
  obtain ⟨h1, h2⟩ := radix_inj _ _ _ _ _ hj hj' hl hl' h
  obtain ⟨h3, h4⟩ := radix_inj _ _ _ _ _ hi hi' hk hk' h1
  exact ⟨h3, h4, h2⟩

/-- The offset of a site within its layer lies in `[0, lengthSegments * 2n)`. -/
theorem inLayer_bounds {F : Type} (p : Params F) (i j : Int)
    (hi : 0 ≤ i) (hi' : i < p.lengthSegments) (hj : 0 ≤ j) (hj' : j < 2 * p.n) :
    0 ≤ i * 2 * p.n + j ∧ i * 2 * p.n + j < p.lengthSegments * 2 * p.n := by
  have hn : 0 < 2 * p.n := by omega
  constructor
  · have : 0 ≤ i * (2 * p.n) := mul_nonneg hi hn.le
    nlinarith
  · have : (i + 1) * (2 * p.n) ≤ p.lengthSegments * (2 * p.n) :=
      mul_le_mul_of_nonneg_right (by omega) hn.le
    nlinarith

theorem flatIndex_bounds {F : Type} (p : Params F) (L i j : Int)
    (hL : 0 ≤ L) (hL' : L < p.layers)
    (hi : 0 ≤ i) (hi' : i < p.lengthSegments) (hj : 0 ≤ j) (hj' : j < 2 * p.n) :
    0 ≤ flatIndex p L i j ∧ flatIndex p L i j < p.layers * p.lengthSegments * 2 * p.n := by
  obtain ⟨h1, h2⟩ := inLayer_bounds p i j hi hi' hj hj'
  have hA : 0 ≤ p.lengthSegments * 2 * p.n := by linarith
  unfold flatIndex
  constructor
  · have : 0 ≤ L * (p.lengthSegments * 2 * p.n) := mul_nonneg hL hA
    nlinarith
  · have : (L + 1) * (p.lengthSegments * 2 * p.n) ≤ p.layers * (p.lengthSegments * 2 * p.n) :=
      mul_le_mul_of_nonneg_right (by omega) hA
    nlinarith

/-- The consumer's division recovers the layer from a flat index. -/
theorem flatIndex_tdiv {F : Type} (p : Params F) (L i j : Int) (hL : 0 ≤ L)
    (hi : 0 ≤ i) (hi' : i < p.lengthSegments) (hj : 0 ≤ j) (hj' : j < 2 * p.n) :
    Int.tdiv (flatIndex p L i j) (p.lengthSegments * 2 * p.n) = L := by
  obtain ⟨h1, h2⟩ := inLayer_bounds p i j hi hi' hj hj'
  have hA : 0 < p.lengthSegments * 2 * p.n := by linarith
  have h0 : 0 ≤ flatIndex p L i j := by
    unfold flatIndex
    have : 0 ≤ L * (p.lengthSegments * 2 * p.n) := mul_nonneg hL hA.le
    nlinarith
  rw [Int.tdiv_eq_ediv h0 hA.le]
  have : flatIndex p L i j = (i * 2 * p.n + j) + (p.lengthSegments * 2 * p.n) * L := by
    unfold flatIndex; ring
  rw [this, Int.add_mul_ediv_left _ _ hA.ne', Int.ediv_eq_zero_of_lt h1 h2]
  simp

/-! ## The bonds of one site -/

theorem siteBonds_eq {F : Type} (p : Params F) (L i j : Int) (hj' : j < 2 * p.n) :
    siteBonds p L i j
      = (siteTargets p i j).map (fun t => (flatIndex p L i j, flatIndex p L t.1 t.2)) := by
  unfold siteBonds intraSite siteTargets
  simp only [tmod_two_eq_zero]
  split_ifs <;>
    simp only [pushBond, emptyGlobals, flatIndex, List.nil_append, List.cons_append,
      List.map_cons, List.map_nil, List.append_nil, List.cons.injEq, Prod.mk.injEq,
      and_true, true_and] <;>
    first
      | omega
      | linarith
      | (refine ⟨?_, ?_⟩ <;> first | trivial | linarith)
      | (refine ⟨?_, ?_, ?_⟩ <;> first | trivial | linarith)

theorem siteTargets_valid {F : Type} (p : Params F) (i j : Int)
    (hi : 0 ≤ i) (hi' : i < p.lengthSegments) (hj : 0 ≤ j) (hj' : j < 2 * p.n) :
    ∀ t ∈ siteTargets p i j,
      0 ≤ t.1 ∧ t.1 < p.lengthSegments ∧ 0 ≤ t.2 ∧ t.2 < 2 * p.n ∧ t ≠ (i, j) := by
  unfold siteTargets
  split_ifs <;>
    simp only [List.nil_append, List.cons_append, List.append_nil, List.forall_mem_cons,
      List.mem_nil_iff, false_imp_iff, implies_true, and_true, ne_eq, Prod.mk.injEq,
      List.not_mem_nil] <;>
    omega

/-! ## Lengths -/

theorem length_flatMap_const {α β : Type} (f : α → List β) (k : Nat) :
    ∀ (l : List α), (∀ x ∈ l, (f x).length = k) → (l.flatMap f).length = l.length * k := by
  intro l
  induction l with
  | nil => intro _; simp
  | cons x l ih =>
    intro h
    rw [List.flatMap_cons, List.length_append, h x (List.mem_cons_self _ _),
      ih (fun y hy => h y (List.mem_cons_of_mem _ hy)), List.length_cons]
    ring

theorem upTo_succ_right (lo hi : Int) (h : lo ≤ hi) : upTo lo (hi + 1) = upTo lo hi ++ [hi] := by
  have e : (hi + 1 - lo).toNat = (hi - lo).toNat + 1 := by omega
  simp only [upTo, e, List.range_succ, List.map_append, List.map_cons, List.map_nil]
  congr 2
  omega

/-- The length of a comprehension over `2m` sites whose pieces have one length at
even sites and another at odd sites. -/
theorem length_flatMap_parity {β : Type} (f : Int → List β) (a b : Nat) :
    ∀ (m : Nat),
      (∀ j : Int, 0 ≤ j → j < 2 * (m : Int) → j % 2 = 0 → (f j).length = a) →
      (∀ j : Int, 0 ≤ j → j < 2 * (m : Int) → j % 2 = 1 → (f j).length = b) →
      ((upTo 0 (2 * (m : Int))).flatMap f).length = m * (a + b) := by
  intro m
  induction m with
  | zero => intro _ _; simp [upTo]
  | succ m ih =>
    intro he ho
    have e : 2 * ((m + 1 : Nat) : Int) = 2 * (m : Int) + 1 + 1 := by push_cast; ring
    rw [e, upTo_succ_right _ _ (by omega), upTo_succ_right _ _ (by omega)]
    simp only [List.flatMap_append, List.flatMap_cons, List.flatMap_nil, List.append_nil,
      List.length_append]
    rw [ih (fun j h0 h1 h2 => he j h0 (by push_cast; omega) h2)
          (fun j h0 h1 h2 => ho j h0 (by push_cast; omega) h2),
      he (2 * (m : Int)) (by omega) (by push_cast; omega) (by omega),
      ho (2 * (m : Int) + 1) (by omega) (by push_cast; omega) (by omega)]
    ring

theorem length_siteTargets {F : Type} (p : Params F) (i j : Int) :
    (siteTargets p i j).length
      = 1 + (if i < p.lengthSegments - 1 then (if j % 2 = 0 then 1 else 2) else 0) := by
  unfold siteTargets
  split_ifs <;> simp

/-- One segment contributes `2n` ring bonds, and `3n` axial bonds unless it is the
last segment. -/
theorem length_segment {F : Type} (p : Params F) (L i : Int) (hn : 0 ≤ p.n) :
    ((upTo 0 (2 * p.n)).flatMap (fun j => siteBonds p L i j)).length
      = p.n.toNat * (if i < p.lengthSegments - 1 then 5 else 2) := by
  obtain ⟨m, hm⟩ := Int.eq_ofNat_of_zero_le hn
  have e : p.n.toNat = m := by omega
  rw [e, hm]
  by_cases ha : i < p.lengthSegments - 1
  · rw [if_pos ha]
    refine length_flatMap_parity _ 2 3 m ?_ ?_
    · intro j _ h1 h2
      rw [siteBonds_eq p L i j (by omega), List.length_map, length_siteTargets, if_pos ha,
        if_pos h2]
    · intro j _ h1 h2
      rw [siteBonds_eq p L i j (by omega), List.length_map, length_siteTargets, if_pos ha,
        if_neg (by omega)]
  · rw [if_neg ha]
    refine length_flatMap_parity _ 1 1 m ?_ ?_
    · intro j _ h1 h2
      rw [siteBonds_eq p L i j (by omega), List.length_map, length_siteTargets, if_neg ha]
    · intro j _ h1 h2
      rw [siteBonds_eq p L i j (by omega), List.length_map, length_siteTargets, if_neg ha]

/-- One layer contributes `2n` bonds for its last segment and `5n` for each other. -/
theorem length_layer {F : Type} (p : Params F) (L : Int) (hn : 0 ≤ p.n)
    (hs : 1 ≤ p.lengthSegments) :
    ((upTo 0 p.lengthSegments).flatMap (fun i =>
        (upTo 0 (2 * p.n)).flatMap (fun j => siteBonds p L i j))).length
      = (p.lengthSegments - 1).toNat * (p.n.toNat * 5) + p.n.toNat * 2 := by
  have e : p.lengthSegments = (p.lengthSegments - 1) + 1 := by ring
  rw [e, upTo_succ_right _ _ (by omega), ← e, List.flatMap_append, List.length_append,
    length_flatMap_const _ (p.n.toNat * 5), length_upTo]
  · simp only [List.flatMap_cons, List.flatMap_nil, List.append_nil]
    rw [length_segment p L _ hn, if_neg (lt_irrefl _)]
    simp
  · intro i hi
    rw [mem_upTo] at hi
    rw [length_segment p L i hn, if_pos hi.2]

theorem length_intraList {F : Type} (p : Params F) (hl : 0 ≤ p.layers) (hn : 0 ≤ p.n)
    (hs : 1 ≤ p.lengthSegments) :
    ((intraList p).length : Int)
      = p.layers * (2 * p.n * p.lengthSegments + 3 * p.n * (p.lengthSegments - 1)) := by
  unfold intraList
  rw [length_flatMap_const _ _ _ (fun L _ => length_layer p L hn hs), length_upTo]
  push_cast
  rw [Int.toNat_of_nonneg (by omega : 0 ≤ p.layers - 0),
    Int.toNat_of_nonneg (by omega : 0 ≤ p.lengthSegments - 1), Int.toNat_of_nonneg hn]
  ring

theorem length_interList {F : Type} (p : Params F) (hl : 1 ≤ p.layers) (hn : 0 ≤ p.n)
    (hs : 0 ≤ p.lengthSegments) :
    ((interList p).length : Int)
      = (p.layers - 1) * ((p.lengthSegments + 1) / 2) * p.n := by
  unfold interList pairBonds
  split_ifs with h
  · rw [length_flatMap_const _ (((p.lengthSegments + 1) / 2).toNat * p.n.toNat), length_upTo]
    · push_cast
      rw [Int.toNat_of_nonneg (by omega : 0 ≤ p.layers - 1 - 0),
        Int.toNat_of_nonneg (by omega : 0 ≤ (p.lengthSegments + 1) / 2),
        Int.toNat_of_nonneg hn]
      ring
    · intro L _
      rw [length_flatMap_const _ p.n.toNat, length_upTo2]
      · simp
      · intro i _
        rw [List.length_map, length_upTo2]
        congr 1
        omega
  · have : p.layers = 1 := by omega
    simp [this]

theorem length_atomList {F : Type} [Field F] (c : Numerics F) (p : Params F)
    (hl : 0 ≤ p.layers) (hn : 0 ≤ p.n) (hs : 0 ≤ p.lengthSegments) :
    ((atomList c p).length : Int) = p.layers * p.lengthSegments * 2 * p.n := by
  unfold atomList
  rw [length_flatMap_const _ (p.lengthSegments.toNat * (2 * p.n).toNat), length_upTo]
  · push_cast
    rw [Int.toNat_of_nonneg (by omega : 0 ≤ p.layers - 0), Int.toNat_of_nonneg hs,
      Int.toNat_of_nonneg (by omega : 0 ≤ 2 * p.n)]
    ring
  · intro L _
    rw [length_flatMap_const _ (2 * p.n).toNat, length_upTo]
    · simp
    · intro i _
      rw [List.length_map, length_upTo]
      simp

/-! ## Membership -/

theorem mem_intraList {F : Type} (p : Params F) (b : Int × Int) :
    b ∈ intraList p ↔
      ∃ L i j, (0 ≤ L ∧ L < p.layers) ∧ (0 ≤ i ∧ i < p.lengthSegments) ∧
        (0 ≤ j ∧ j < 2 * p.n) ∧ b ∈ siteBonds p L i j := by
  simp only [intraList, List.mem_flatMap, mem_upTo]
  constructor
  · rintro ⟨L, hL, i, hi, j, hj, hb⟩
    exact ⟨L, i, j, hL, hi, hj, hb⟩
  · rintro ⟨L, i, j, hL, hi, hj, hb⟩
    exact ⟨L, hL, i, hi, j, hj, hb⟩

/-- Every intralayer bond joins two different sites of one layer. -/
theorem intraList_endpoints {F : Type} (p : Params F) (b : Int × Int) (hb : b ∈ intraList p) :
    ∃ L i j i' j', (0 ≤ L ∧ L < p.layers) ∧ (0 ≤ i ∧ i < p.lengthSegments) ∧
      (0 ≤ j ∧ j < 2 * p.n) ∧ (0 ≤ i' ∧ i' < p.lengthSegments) ∧ (0 ≤ j' ∧ j' < 2 * p.n) ∧
      (i', j') ≠ (i, j) ∧ b = (flatIndex p L i j, flatIndex p L i' j') := by
  obtain ⟨L, i, j, hL, hi, hj, hmem⟩ := (mem_intraList p b).1 hb
  rw [siteBonds_eq p L i j hj.2, List.mem_map] at hmem
  obtain ⟨t, ht, rfl⟩ := hmem
  obtain ⟨h1, h2, h3, h4, h5⟩ := siteTargets_valid p i j hi.1 hi.2 hj.1 hj.2 t ht
  exact ⟨L, i, j, t.1, t.2, hL, hi, hj, ⟨h1, h2⟩, ⟨h3, h4⟩, h5, rfl⟩

theorem mem_pairBonds {F : Type} (p : Params F) (L : Int) (b : Int × Int) :
    b ∈ pairBonds p L ↔
      ∃ i j, (0 ≤ i ∧ i < p.lengthSegments ∧ i % 2 = 0) ∧ (0 ≤ j ∧ j < 2 * p.n ∧ j % 2 = 0) ∧
        b = (flatIndex p L i j, flatIndex p (L + 1) i j) := by
  simp only [pairBonds, List.mem_flatMap, List.mem_map, mem_upTo2, sub_zero]
  constructor
  · rintro ⟨i, hi, j, hj, rfl⟩
    exact ⟨i, j, hi, hj, rfl⟩
  · rintro ⟨i, j, hi, hj, rfl⟩
    exact ⟨i, hi, j, hj, rfl⟩

theorem mem_interList {F : Type} (p : Params F) (b : Int × Int) :
    b ∈ interList p ↔ ∃ L, (0 ≤ L ∧ L < p.layers - 1) ∧ b ∈ pairBonds p L := by
  unfold interList
  split_ifs with h
  · simp only [List.mem_flatMap, mem_upTo]
  · simp only [List.not_mem_nil, false_iff, not_exists, not_and]
    intro L hL
    omega

/-! ## Indexing a nested comprehension -/

theorem getElem?_flatMap_const {α β : Type} (f : α → List β) (k : Nat) :
    ∀ (l : List α) (a b : Nat) (x : α), (∀ y ∈ l, (f y).length = k) → b < k →
      l[a]? = some x → (l.flatMap f)[a * k + b]? = (f x)[b]? := by
  intro l
  induction l with
  | nil => intro a b x _ _ h; simp at h
  | cons y l ih =>
    intro a b x hlen hb h
    have hy : (f y).length = k := hlen y (List.mem_cons_self _ _)
    cases a with
    | zero =>
      simp only [List.getElem?_cons_zero, Option.some.injEq] at h
      subst h
      rw [List.flatMap_cons, Nat.zero_mul, Nat.zero_add,
        List.getElem?_append_left (by omega)]
    | succ a =>
      simp only [List.getElem?_cons_succ] at h
      rw [List.flatMap_cons, List.getElem?_append_right (by rw [hy]; nlinarith)]
      have e : (a + 1) * k + b - (f y).length = a * k + b := by
        rw [hy, Nat.succ_mul]; omega
      rw [e]
      exact ih a b x (fun z hz => hlen z (List.mem_cons_of_mem _ hz)) hb h

/-- The atom stored at a flat index is the one generated for its (layer, segment,
site). -/
theorem atomList_getElem? {F : Type} [Field F] (c : Numerics F) (p : Params F)
    (L i j : Int) (hL : 0 ≤ L) (hL' : L < p.layers) (hi : 0 ≤ i)
    (hi' : i < p.lengthSegments) (hj : 0 ≤ j) (hj' : j < 2 * p.n) :
    (atomList c p)[(flatIndex p L i j).toNat]? = some (atomAt c p L i j) := by
  obtain ⟨a, rfl⟩ := Int.eq_ofNat_of_zero_le hL
  obtain ⟨b, rfl⟩ := Int.eq_ofNat_of_zero_le hi
  obtain ⟨d, rfl⟩ := Int.eq_ofNat_of_zero_le hj
  have hidx : (flatIndex p a b d).toNat
      = a * (p.lengthSegments.toNat * (2 * p.n).toNat) + (b * (2 * p.n).toNat + d) := by
    apply Int.ofNat.inj
    have h0 := (flatIndex_bounds p a b d hL hL' hi hi' hj hj').1
    simp only [Int.ofNat_eq_coe]
    rw [Int.toNat_of_nonneg h0]
    push_cast
    rw [Int.toNat_of_nonneg (by omega : 0 ≤ p.lengthSegments),
      Int.toNat_of_nonneg (by omega : 0 ≤ 2 * p.n)]
    unfold flatIndex
    ring
  have hb : b * (2 * p.n).toNat + d < p.lengthSegments.toNat * (2 * p.n).toNat := by
    have := (inLayer_bounds p b d hi hi' hj hj').2
    zify
    rw [Int.toNat_of_nonneg (by omega : 0 ≤ p.lengthSegments),
      Int.toNat_of_nonneg (by omega : 0 ≤ 2 * p.n)]
    linarith
  rw [hidx]
  unfold atomList
  rw [getElem?_flatMap_const _ (p.lengthSegments.toNat * (2 * p.n).toNat) _ a _ (a : Int)
      ?_ hb (getElem?_upTo_zero _ _ hL'),
    getElem?_flatMap_const _ (2 * p.n).toNat _ b d (b : Int) ?_ (by omega)
      (getElem?_upTo_zero _ _ hi'),
    List.getElem?_map, getElem?_upTo_zero _ _ hj']
  · rfl
  · intro y _
    simp [length_upTo]
  · intro y _
    rw [length_flatMap_const _ (2 * p.n).toNat, length_upTo]
    · simp
    · intro z _
      simp [length_upTo]

/-! ## Facts shared by the main theorems -/

theorem ceil_half (k : Int) : ⌈(k : ℚ) / 2⌉ = (k + 1) / 2 := by
  rw [Int.ceil_eq_iff]
  have h1 : 2 * ((k + 1) / 2) ≤ k + 1 := by omega
  have h2 : k ≤ 2 * ((k + 1) / 2) := by omega
  have h1' : (2 : ℚ) * (((k + 1) / 2 : Int) : ℚ) ≤ (k : ℚ) + 1 := by exact_mod_cast h1
  have h2' : (k : ℚ) ≤ 2 * (((k + 1) / 2 : Int) : ℚ) := by exact_mod_cast h2
  constructor <;> linarith

theorem intraList_same_layer {F : Type} (p : Params F) (b : Int × Int)
    (hb : b ∈ intraList p) :
    Int.tdiv b.1 (p.lengthSegments * 2 * p.n) = Int.tdiv b.2 (p.lengthSegments * 2 * p.n) := by
  obtain ⟨L, i, j, i', j', hL, hi, hj, hi', hj', _, rfl⟩ := intraList_endpoints p b hb
  rw [flatIndex_tdiv p L i j hL.1 hi.1 hi.2 hj.1 hj.2,
    flatIndex_tdiv p L i' j' hL.1 hi'.1 hi'.2 hj'.1 hj'.2]

theorem interList_next_layer {F : Type} (p : Params F) (b : Int × Int)
    (hb : b ∈ interList p) :
    Int.tdiv b.2 (p.lengthSegments * 2 * p.n)
      = Int.tdiv b.1 (p.lengthSegments * 2 * p.n) + 1 := by
  obtain ⟨L, hL, hmem⟩ := (mem_interList p b).1 hb
  obtain ⟨i, j, hi, hj, rfl⟩ := (mem_pairBonds p L b).1 hmem
  rw [flatIndex_tdiv p L i j hL.1 hi.1 hi.2.1 hj.1 hj.2.1,
    flatIndex_tdiv p (L + 1) i j (by omega) hi.1 hi.2.1 hj.1 hj.2.1]

theorem length_pairBonds {F : Type} (p : Params F) (L : Int) (hn : 0 ≤ p.n)
    (hs : 0 ≤ p.lengthSegments) :
    ((pairBonds p L).length : Int) = (p.lengthSegments + 1) / 2 * p.n := by
  unfold pairBonds
  rw [length_flatMap_const _ p.n.toNat, length_upTo2]
  · push_cast
    rw [Int.toNat_of_nonneg hn]
    rw [Int.toNat_of_nonneg (by omega)]
    simp
  · intro i _
    rw [List.length_map, length_upTo2]
    congr 1
    omega

theorem interList_eq_flatMap {F : Type} (p : Params F) (hl : 1 ≤ p.layers) :
    interList p = (upTo 0 (p.layers - 1)).flatMap (fun layer => pairBonds p layer) := by
  unfold interList
  split_ifs with h
  · rfl
  · rw [upTo_ge _ _ (by omega)]
    rfl

theorem mem_interList_iff {F : Type} (p : Params F) (b : Int × Int) :
    b ∈ interList p ↔
      ∃ L i j, (0 ≤ L ∧ L < p.layers - 1) ∧ (0 ≤ i ∧ i < p.lengthSegments ∧ i % 2 = 0) ∧
        (0 ≤ j ∧ j < 2 * p.n ∧ j % 2 = 0) ∧
        b = (flatIndex p L i j, flatIndex p (L + 1) i j) := by
  rw [mem_interList]
  constructor
  · rintro ⟨L, hL, hb⟩
    obtain ⟨i, j, hi, hj, rfl⟩ := (mem_pairBonds p L b).1 hb
    exact ⟨L, i, j, hL, hi, hj, rfl⟩
  · rintro ⟨L, i, j, hL, hi, hj, rfl⟩
    exact ⟨L, hL, (mem_pairBonds p L _).2 ⟨i, j, hi, hj, rfl⟩⟩

/-- Both endpoints of every bond are flat indices of generated atoms, and they
differ. -/
theorem bond_endpoints {F : Type} (p : Params F) (b : Int × Int)
    (hb : b ∈ intraList p ++ interList p) :
    (0 ≤ p.layers ∧ 0 ≤ p.n ∧ 0 ≤ p.lengthSegments) ∧
    (0 ≤ b.1 ∧ b.1 < p.layers * p.lengthSegments * 2 * p.n) ∧
    (0 ≤ b.2 ∧ b.2 < p.layers * p.lengthSegments * 2 * p.n) ∧ b.1 ≠ b.2 := by
  rcases List.mem_append.1 hb with h | h
  · obtain ⟨L, i, j, i', j', hL, hi, hj, hi', hj', hne, rfl⟩ := intraList_endpoints p b h
    refine ⟨⟨by omega, by omega, by omega⟩,
      flatIndex_bounds p L i j hL.1 hL.2 hi.1 hi.2 hj.1 hj.2,
      flatIndex_bounds p L i' j' hL.1 hL.2 hi'.1 hi'.2 hj'.1 hj'.2, ?_⟩
    intro heq
    obtain ⟨_, h1, h2⟩ :=
      flatIndex_inj p L i j L i' j' hi.1 hi.2 hj.1 hj.2 hi'.1 hi'.2 hj'.1 hj'.2 heq
    exact hne (by rw [h1, h2])
  · obtain ⟨L, i, j, hL, hi, hj, rfl⟩ := (mem_interList_iff p b).1 h
    refine ⟨⟨by omega, by omega, by omega⟩,
      flatIndex_bounds p L i j hL.1 (by omega) hi.1 hi.2.1 hj.1 hj.2.1,
      flatIndex_bounds p (L + 1) i j (by omega) (by omega) hi.1 hi.2.1 hj.1 hj.2.1, ?_⟩
    intro heq
    obtain ⟨h1, _, _⟩ :=
      flatIndex_inj p L i j (L + 1) i j hi.1 hi.2.1 hj.1 hj.2.1 hi.1 hi.2.1 hj.1 hj.2.1 heq
    omega

/-- On a site index `j ≥ 0` the source's computation is the specification's formula. -/
theorem atomAt_eq_specAtom {F : Type} [Field F] (c : Numerics F) (p : Params F)
    (L i j : Int) (hj : 0 ≤ j) : atomAt c p L i j = specAtom c p L i j := by
  unfold atomAt specAtom scaledA layerRadius
  simp only [tmod_two_eq_zero, Int.tdiv_eq_ediv hj (by decide : (0 : Int) ≤ 2)]
  by_cases h : j % 2 = 0
  · have h1 : ¬ j % 2 = 1 := by omega
    simp only [if_pos h, if_neg h1, add_zero, Point3D.mk.injEq, true_and]
    ring
  · have h1 : j % 2 = 1 := by omega
    simp only [if_neg h, if_pos h1, Point3D.mk.injEq, true_and]
    ring

theorem layerRadius_succ {F : Type} [Field F] (c : Numerics F) (p : Params F) (L : Int) :
    layerRadius c p (L + 1) - layerRadius c p L = p.interlayerDistance := by
  unfold layerRadius
  push_cast
  ring

/-- With a non-positive loop bound no atom and no bond is generated. -/
theorem create_of_nonpos {F : Type} [Field F] (c : Numerics F) (p : Params F)
    (s : Globals F) (h : p.layers ≤ 0 ∨ p.n ≤ 0 ∨ p.lengthSegments ≤ 0) :
    createMultiWalledNanotube c p s = ⟨[], []⟩ := by
  rw [create_eq]
  have ha : atomList c p = [] := by
    apply List.eq_nil_iff_forall_not_mem.2
    intro x hx
    simp only [atomList, List.mem_flatMap, List.mem_map, mem_upTo] at hx
    obtain ⟨L, hL, i, hi, j, hj, _⟩ := hx
    omega
  have hb : intraList p ++ interList p = [] := by
    apply List.eq_nil_iff_forall_not_mem.2
    intro b hb
    obtain ⟨⟨h1, h2, h3⟩, ⟨h4, h5⟩, _⟩ := bond_endpoints p b hb
    rcases h with h | h | h
    · have : p.layers = 0 := by omega
      rw [this] at h5
      simp only [zero_mul] at h5
      omega
    · have : p.n = 0 := by omega
      rw [this] at h5
      simp only [mul_zero] at h5
      omega
    · have : p.lengthSegments = 0 := by omega
      rw [this] at h5
      simp only [mul_zero, zero_mul] at h5
      omega
  rw [ha, hb]

/-- The bond list for one layer, `n = 6`, one segment: the twelve ring bonds. -/
theorem intraList_single_ring {F : Type} (a bondLength interlayerDistance : F) :
    intraList (⟨1, 6, a, bondLength, interlayerDistance, 1⟩ : Params F)
      = [(0, 1), (1, 2), (2, 3), (3, 4), (4, 5), (5, 6), (6, 7), (7, 8), (8, 9), (9, 10),
         (10, 11), (11, 0)] := by
  rfl

theorem interList_single_layer {F : Type} (p : Params F) (h : p.layers = 1) :
    interList p = [] := by
  unfold interList
  rw [if_neg (by omega)]

/-! ## Coordination of the atoms of inner segments -/

theorem intraList_eq_sites {F : Type} (p : Params F) :
    intraList p = (sites p).flatMap (fun t => siteBonds p t.1 t.2.1 t.2.2) := by
  simp only [intraList, sites, List.flatMap_assoc, List.flatMap_map]

theorem mem_sites {F : Type} (p : Params F) (t : Int × Int × Int) :
    t ∈ sites p ↔ (0 ≤ t.1 ∧ t.1 < p.layers) ∧ (0 ≤ t.2.1 ∧ t.2.1 < p.lengthSegments) ∧
      (0 ≤ t.2.2 ∧ t.2.2 < 2 * p.n) := by
  obtain ⟨L, i, j⟩ := t
  simp only [sites, List.mem_flatMap, List.mem_map, mem_upTo, Prod.mk.injEq]
  constructor
  · rintro ⟨L', hL, i', hi, j', hj, rfl, rfl, rfl⟩
    exact ⟨hL, hi, hj⟩
  · rintro ⟨hL, hi, hj⟩
    exact ⟨L, hL, i, hi, j, hj, rfl, rfl, rfl⟩

theorem nodup_sites {F : Type} (p : Params F) : (sites p).Nodup := by
  unfold sites
  rw [List.nodup_flatMap]
  refine ⟨fun L _ => ?_, ?_⟩
  · rw [List.nodup_flatMap]
    refine ⟨fun i _ => ?_, ?_⟩
    · refine List.Nodup.map ?_ (nodup_upTo _ _)
      intro a b h
      simpa using h
    · refine (nodup_upTo 0 p.lengthSegments).imp ?_
      intro a b hne x hxa hxb
      simp only [List.mem_map] at hxa hxb
      obtain ⟨_, _, rfl⟩ := hxa
      obtain ⟨_, _, h⟩ := hxb
      simp only [Prod.mk.injEq] at h
      exact hne h.2.1.symm
  · refine (nodup_upTo 0 p.layers).imp ?_
    intro a b hne x hxa hxb
    simp only [List.mem_flatMap, List.mem_map] at hxa hxb
    obtain ⟨_, _, _, _, rfl⟩ := hxa
    obtain ⟨_, _, _, _, h⟩ := hxb
    simp only [Prod.mk.injEq] at h
    exact hne h.1.symm

/-- Counting in a comprehension only needs the pieces that contribute. -/
theorem countP_flatMap_restrict {α β : Type} [DecidableEq α] (q : β → Bool)
    (f : α → List β) (l S : List α) (hl : l.Nodup) (hS : S.Nodup)
    (hsub : ∀ x ∈ S, x ∈ l) (hz : ∀ x ∈ l, x ∉ S → List.countP q (f x) = 0) :
    List.countP q (l.flatMap f) = List.countP q (S.flatMap f) := by
  rw [List.countP_flatMap, List.countP_flatMap, ← List.sum_toFinset _ hl,
    ← List.sum_toFinset _ hS]
  symm
  apply Finset.sum_subset
  · intro x hx
    rw [List.mem_toFinset] at hx ⊢
    exact hsub x hx
  · intro x hx hnx
    rw [List.mem_toFinset] at hx hnx
    exact hz x hx hnx

/-- Whether a bond of site `(L, i, j)` touches the atom `(L0, i0, j0)`, in terms of
(segment, site) pairs. -/
theorem countP_touches_siteBonds {F : Type} (p : Params F) (L i j L0 i0 j0 : Int)
    (hi : 0 ≤ i ∧ i < p.lengthSegments) (hj : 0 ≤ j ∧ j < 2 * p.n)
    (hi0 : 0 ≤ i0 ∧ i0 < p.lengthSegments) (hj0 : 0 ≤ j0 ∧ j0 < 2 * p.n) :
    List.countP (touches (flatIndex p L0 i0 j0)) (siteBonds p L i j)
      = if L = L0 then
          List.countP (fun t => decide ((i, j) = (i0, j0)) || decide (t = (i0, j0)))
            (siteTargets p i j)
        else 0 := by
  rw [siteBonds_eq p L i j hj.2, List.countP_map]
  have hv := siteTargets_valid p i j hi.1 hi.2 hj.1 hj.2
  split_ifs with hL
  · subst hL
    apply List.countP_congr
    intro t ht
    obtain ⟨h1, h2, h3, h4, _⟩ := hv t ht
    simp only [Function.comp, touches, Bool.or_eq_true, decide_eq_true_eq, Prod.mk.injEq]
    constructor
    · rintro (h | h)
      · obtain ⟨_, e1, e2⟩ := flatIndex_inj p _ _ _ _ _ _ hi.1 hi.2 hj.1 hj.2
          hi0.1 hi0.2 hj0.1 hj0.2 h
        exact Or.inl ⟨e1, e2⟩
      · obtain ⟨_, e1, e2⟩ := flatIndex_inj p _ _ _ _ _ _ h1 h2 h3 h4
          hi0.1 hi0.2 hj0.1 hj0.2 h
        exact Or.inr (Prod.ext e1 e2)
    · rintro (⟨e1, e2⟩ | h)
      · exact Or.inl (by rw [e1, e2])
      · exact Or.inr (by rw [h])
  · rw [List.countP_eq_zero]
    intro t ht
    obtain ⟨h1, h2, h3, h4, _⟩ := hv t ht
    simp only [Function.comp, touches, Bool.or_eq_true, decide_eq_true_eq, not_or]
    constructor
    · intro h
      exact hL (flatIndex_inj p _ _ _ _ _ _ hi.1 hi.2 hj.1 hj.2
        hi0.1 hi0.2 hj0.1 hj0.2 h).1
    · intro h
      exact hL (flatIndex_inj p _ _ _ _ _ _ h1 h2 h3 h4 hi0.1 hi0.2 hj0.1 hj0.2 h).1

theorem sources_nodup {F : Type} (p : Params F) (L i j : Int) (hn : 2 ≤ p.n)
    (hj : 0 ≤ j ∧ j < 2 * p.n) : (sources p L i j).Nodup := by
  unfold sources
  by_cases h0 : j = 0
  · subst h0
    simp only [List.nodup_cons, List.mem_cons, List.mem_singleton, List.not_mem_nil,
      Prod.mk.injEq, List.nodup_nil, if_true, EuclideanDomain.zero_mod, true_and, or_false,
      and_true, not_false_eq_true]
    omega
  · simp only [if_neg h0]
    split_ifs <;>
      simp only [List.nodup_cons, List.mem_cons, List.mem_singleton, List.not_mem_nil,
        Prod.mk.injEq, List.nodup_nil, true_and, or_false, and_true, not_false_eq_true] <;>
      omega

theorem sources_subset {F : Type} (p : Params F) (L i j : Int) (hn : 2 ≤ p.n)
    (hL : 0 ≤ L ∧ L < p.layers) (hi : 0 < i ∧ i < p.lengthSegments - 1)
    (hj : 0 ≤ j ∧ j < 2 * p.n) : ∀ t ∈ sources p L i j, t ∈ sites p := by
  intro t ht
  rw [mem_sites]
  unfold sources at ht
  by_cases h0 : j = 0
  · subst h0
    simp only [if_true, EuclideanDomain.zero_mod, List.mem_cons, List.mem_singleton,
      List.not_mem_nil, or_false] at ht
    rcases ht with rfl | rfl | rfl | rfl | rfl <;> simp only <;> omega
  · simp only [if_neg h0] at ht
    split_ifs at ht <;>
      simp only [List.mem_cons, List.mem_singleton, List.not_mem_nil, or_false] at ht
    · rcases ht with rfl | rfl | rfl | rfl | rfl <;> simp only <;> omega
    · rcases ht with rfl | rfl <;> simp only <;> omega

/-- No bond of a site outside `sources` touches the atom. -/
theorem sources_complete {F : Type} (p : Params F) (L0 i0 j0 : Int)
    (hi0 : 0 < i0 ∧ i0 < p.lengthSegments - 1) (hj0 : 0 ≤ j0 ∧ j0 < 2 * p.n) :
    ∀ t ∈ sites p, t ∉ sources p L0 i0 j0 →
      List.countP (touches (flatIndex p L0 i0 j0)) (siteBonds p t.1 t.2.1 t.2.2) = 0 := by
  rintro ⟨L, i, j⟩ ht hnot
  rw [mem_sites] at ht
  obtain ⟨_, hi, hj⟩ := ht
  simp only at hi hj ⊢
  rw [countP_touches_siteBonds p L i j L0 i0 j0 hi hj ⟨by omega, by omega⟩ hj0]
  split_ifs with hL
  swap
  · rfl
  subst hL
  rw [List.countP_eq_zero]
  intro t ht
  simp only [Bool.or_eq_true, decide_eq_true_eq, Prod.mk.injEq, not_or]
  unfold sources at hnot
  unfold siteTargets at ht
  by_cases h0 : j0 = 0
  · subst h0
    simp only [if_true, EuclideanDomain.zero_mod, List.mem_cons, List.mem_singleton,
      List.not_mem_nil, or_false, Prod.mk.injEq, true_and, not_or] at hnot
    split_ifs at ht <;>
      simp only [List.mem_append, List.mem_cons, List.mem_singleton, List.not_mem_nil,
        or_false] at ht <;>
      (try rcases ht with rfl | rfl | rfl) <;>
      simp only [Prod.mk.injEq] <;>
      omega
  · simp only [if_neg h0] at hnot
    split_ifs at hnot <;>
      simp only [List.mem_cons, List.mem_singleton, List.not_mem_nil, or_false,
        Prod.mk.injEq, true_and, not_or] at hnot <;>
      split_ifs at ht <;>
      simp only [List.mem_append, List.mem_cons, List.mem_singleton, List.not_mem_nil,
        or_false] at ht <;>
      (try rcases ht with rfl | rfl | rfl) <;>
      simp only [Prod.mk.injEq] <;>
      omega

theorem countP_touches_same_layer {F : Type} (p : Params F) (L0 i j i0 j0 : Int)
    (hi : 0 ≤ i ∧ i < p.lengthSegments) (hj : 0 ≤ j ∧ j < 2 * p.n)
    (hi0 : 0 ≤ i0 ∧ i0 < p.lengthSegments) (hj0 : 0 ≤ j0 ∧ j0 < 2 * p.n) :
    List.countP (touches (flatIndex p L0 i0 j0)) (siteBonds p L0 i j)
      = List.countP (fun t => decide ((i, j) = (i0, j0)) || decide (t = (i0, j0)))
          (siteTargets p i j) := by
  rw [countP_touches_siteBonds p L0 i j L0 i0 j0 hi hj hi0 hj0, if_pos rfl]

/-- Every bond emitted at the atom's own site touches it. -/
theorem hit_own {F : Type} (p : Params F) (i0 j0 : Int)
    (hi0 : i0 < p.lengthSegments - 1) :
    List.countP (fun t => decide ((i0, j0) = (i0, j0)) || decide (t = (i0, j0)))
        (siteTargets p i0 j0) = if j0 % 2 = 0 then 2 else 3 := by
  unfold siteTargets
  split_ifs <;>
    (try omega) <;>
    simp only [List.cons_append, List.nil_append, List.append_nil, List.countP_cons,
      List.countP_nil, Bool.or_eq_true, decide_eq_true_eq, Prod.mk.injEq, eq_self_iff_true,
      true_and, and_true, true_or, or_true, if_true] <;>
    (try split_ifs) <;>
    omega

/-- The site below an even site sends it its axial bond. -/
theorem hit_below {F : Type} (p : Params F) (i0 j0 : Int) (hp : j0 % 2 = 0)
    (hi0 : 0 < i0 ∧ i0 < p.lengthSegments - 1) :
    List.countP (fun t => decide ((i0 - 1, j0) = (i0, j0)) || decide (t = (i0, j0)))
        (siteTargets p (i0 - 1) j0) = 1 := by
  unfold siteTargets
  split_ifs <;>
    (try omega) <;>
    simp only [List.cons_append, List.nil_append, List.append_nil, List.countP_cons,
      List.countP_nil, Bool.or_eq_true, decide_eq_true_eq, Prod.mk.injEq, eq_self_iff_true,
      true_and, and_true, true_or, or_true, if_true] <;>
    (try split_ifs) <;>
    omega

/-- The odd site below and to the right sends an even site one axial bond. -/
theorem hit_below_right {F : Type} (p : Params F) (i0 j0 : Int) (hn : 2 ≤ p.n)
    (hp : j0 % 2 = 0)
    (hi0 : 0 < i0 ∧ i0 < p.lengthSegments - 1) (hj0 : 0 ≤ j0 ∧ j0 < 2 * p.n) :
    List.countP (fun t => decide ((i0 - 1, j0 + 1) = (i0, j0)) || decide (t = (i0, j0)))
        (siteTargets p (i0 - 1) (j0 + 1)) = 1 := by
  unfold siteTargets
  split_ifs <;>
    (try omega) <;>
    simp only [List.cons_append, List.nil_append, List.append_nil, List.countP_cons,
      List.countP_nil, Bool.or_eq_true, decide_eq_true_eq, Prod.mk.injEq, eq_self_iff_true,
      true_and, and_true, true_or, or_true, if_true] <;>
    (try split_ifs) <;>
    omega

/-- The odd site below and to the left (cyclically) sends an even site one axial
bond. -/
theorem hit_below_left {F : Type} (p : Params F) (i0 j0 jm : Int) (hn : 2 ≤ p.n)
    (hp : j0 % 2 = 0) (hm : (j0 = 0 ∧ jm = 2 * p.n - 1) ∨ (j0 ≠ 0 ∧ jm = j0 - 1))
    (hi0 : 0 < i0 ∧ i0 < p.lengthSegments - 1) (hj0 : 0 ≤ j0 ∧ j0 < 2 * p.n) :
    List.countP (fun t => decide ((i0 - 1, jm) = (i0, j0)) || decide (t = (i0, j0)))
        (siteTargets p (i0 - 1) jm) = 1 := by
  unfold siteTargets
  split_ifs <;>
    (try omega) <;>
    simp only [List.cons_append, List.nil_append, List.append_nil, List.countP_cons,
      List.countP_nil, Bool.or_eq_true, decide_eq_true_eq, Prod.mk.injEq, eq_self_iff_true,
      true_and, and_true, true_or, or_true, if_true] <;>
    (try split_ifs) <;>
    omega

/-- The site to the left (cyclically) in the same segment sends its ring bond. -/
theorem hit_left {F : Type} (p : Params F) (i0 j0 jm : Int)
    (hm : (j0 = 0 ∧ jm = 2 * p.n - 1) ∨ (j0 ≠ 0 ∧ jm = j0 - 1))
    (hi0 : 0 < i0 ∧ i0 < p.lengthSegments - 1) (hj0 : 0 ≤ j0 ∧ j0 < 2 * p.n) :
    List.countP (fun t => decide ((i0, jm) = (i0, j0)) || decide (t = (i0, j0)))
        (siteTargets p i0 jm) = 1 := by
  unfold siteTargets
  split_ifs <;>
    (try omega) <;>
    simp only [List.cons_append, List.nil_append, List.append_nil, List.countP_cons,
      List.countP_nil, Bool.or_eq_true, decide_eq_true_eq, Prod.mk.injEq, eq_self_iff_true,
      true_and, and_true, true_or, or_true, if_true] <;>
    (try split_ifs) <;>
    omega

/-- The bonds of the sites in `sources` that touch the atom: six at an even site,
four at an odd one. -/
theorem sources_count {F : Type} (p : Params F) (L0 i0 j0 : Int) (hn : 2 ≤ p.n)
    (hi0 : 0 < i0 ∧ i0 < p.lengthSegments - 1) (hj0 : 0 ≤ j0 ∧ j0 < 2 * p.n) :
    List.countP (touches (flatIndex p L0 i0 j0))
        ((sources p L0 i0 j0).flatMap (fun t => siteBonds p t.1 t.2.1 t.2.2))
      = if j0 % 2 = 0 then 6 else 4 := by
  have hI : 0 ≤ i0 ∧ i0 < p.lengthSegments := ⟨by omega, by omega⟩
  have hI' : 0 ≤ i0 - 1 ∧ i0 - 1 < p.lengthSegments := ⟨by omega, by omega⟩
  have hm : (j0 = 0 ∧ (if j0 = 0 then 2 * p.n - 1 else j0 - 1) = 2 * p.n - 1) ∨
      (j0 ≠ 0 ∧ (if j0 = 0 then 2 * p.n - 1 else j0 - 1) = j0 - 1) := by
    by_cases h0 : j0 = 0
    · exact Or.inl ⟨h0, if_pos h0⟩
    · exact Or.inr ⟨h0, if_neg h0⟩
  have hjm : 0 ≤ (if j0 = 0 then 2 * p.n - 1 else j0 - 1) ∧
      (if j0 = 0 then 2 * p.n - 1 else j0 - 1) < 2 * p.n := by
    rcases hm with ⟨_, e⟩ | ⟨_, e⟩ <;> rw [e] <;> omega
  unfold sources
  by_cases hp : j0 % 2 = 0
  · simp only [if_pos hp, List.flatMap_cons, List.flatMap_nil, List.append_nil,
      List.countP_append]
    rw [countP_touches_same_layer p L0 (i0 - 1) j0 i0 j0 hI' hj0 hI hj0,
      countP_touches_same_layer p L0 (i0 - 1) (j0 + 1) i0 j0 hI' ⟨by omega, by omega⟩ hI hj0,
      countP_touches_same_layer p L0 (i0 - 1) _ i0 j0 hI' hjm hI hj0,
      countP_touches_same_layer p L0 i0 _ i0 j0 hI hjm hI hj0,
      countP_touches_same_layer p L0 i0 j0 i0 j0 hI hj0 hI hj0,
      hit_below p i0 j0 hp hi0, hit_below_right p i0 j0 hn hp hi0 hj0,
      hit_below_left p i0 j0 _ hn hp hm hi0 hj0, hit_left p i0 j0 _ hm hi0 hj0,
      hit_own p i0 j0 hi0.2, if_pos hp]
  · simp only [if_neg hp, List.flatMap_cons, List.flatMap_nil, List.append_nil,
      List.countP_append]
    rw [countP_touches_same_layer p L0 i0 (j0 - 1) i0 j0 hI ⟨by omega, by omega⟩ hI hj0,
      countP_touches_same_layer p L0 i0 j0 i0 j0 hI hj0 hI hj0,
      hit_left p i0 j0 (j0 - 1) (Or.inr ⟨by omega, rfl⟩) hi0 hj0,
      hit_own p i0 j0 hi0.2, if_neg hp]

/-- An atom of an inner segment is an endpoint of six intralayer bonds when its site
is even and of four when it is odd. -/
theorem degree_inner {F : Type} (p : Params F) (L0 i0 j0 : Int) (hn : 2 ≤ p.n)
    (hL0 : 0 ≤ L0 ∧ L0 < p.layers) (hi0 : 0 < i0 ∧ i0 < p.lengthSegments - 1)
    (hj0 : 0 ≤ j0 ∧ j0 < 2 * p.n) :
    degree (intraList p) (flatIndex p L0 i0 j0) = if j0 % 2 = 0 then 6 else 4 := by
  unfold degree
  rw [intraList_eq_sites,
    countP_flatMap_restrict _ _ (sites p) (sources p L0 i0 j0) (nodup_sites p)
      (sources_nodup p L0 i0 j0 hn hj0) (sources_subset p L0 i0 j0 hn hL0 hi0 hj0)
      (sources_complete p L0 i0 j0 hi0 hj0)]
  exact sources_count p L0 i0 j0 hn hi0 hj0

/-! ## Main theorems -/

/-- C1: every bond `(u, v)` of the list produced by `createMultiWalledNanotube`,
whichever rule emitted it, satisfies `0 ≤ u < len(atoms)`, `0 ≤ v < len(atoms)` and
`u ≠ v`.  This holds for all parameter values, in particular for `layers ≥ 1`,
`n ≥ 1`, `lengthSegments ≥ 1`. -/
theorem bonds_valid_and_distinct {F : Type} [Field F] (c : Numerics F) (p : Params F)
    (s : Globals F) :
    ∀ b ∈ (createMultiWalledNanotube c p s).bonds,
      (0 ≤ b.1 ∧ b.1 < ((createMultiWalledNanotube c p s).atoms.length : Int)) ∧
      (0 ≤ b.2 ∧ b.2 < ((createMultiWalledNanotube c p s).atoms.length : Int)) ∧
      b.1 ≠ b.2 := by
  intro b hb
  rw [create_eq] at hb ⊢
  obtain ⟨⟨h1, h2, h3⟩, h4, h5, h6⟩ := bond_endpoints p b hb
  simp only
  rw [length_atomList c p h1 h2 h3]
  exact ⟨h4, h5, h6⟩

/-- Witness for C1: the bond `(0, 1)` of the tube with one layer, `n = 6`, one
segment. -/
theorem bonds_valid_and_distinct_witness :
    ((0 : Int), (1 : Int)) ∈ (createMultiWalledNanotube ⟨Real.pi, Real.sqrt 3, Real.cos, Real.sin⟩
        (⟨1, 6, 0.246, 0.142, 0.34, 1⟩ : Params ℝ) ⟨[], []⟩).bonds ∧
    ((0 : Int) ≤ 0 ∧ (0 : Int) < ((createMultiWalledNanotube ⟨Real.pi, Real.sqrt 3, Real.cos, Real.sin⟩
        (⟨1, 6, 0.246, 0.142, 0.34, 1⟩ : Params ℝ) ⟨[], []⟩).atoms.length : Int)) ∧
    ((0 : Int) ≤ 1 ∧ (1 : Int) < ((createMultiWalledNanotube ⟨Real.pi, Real.sqrt 3, Real.cos, Real.sin⟩
        (⟨1, 6, 0.246, 0.142, 0.34, 1⟩ : Params ℝ) ⟨[], []⟩).atoms.length : Int)) ∧
    (0 : Int) ≠ 1 :=
  have hmem : ((0 : Int), (1 : Int)) ∈ (createMultiWalledNanotube ⟨Real.pi, Real.sqrt 3, Real.cos, Real.sin⟩
      (⟨1, 6, 0.246, 0.142, 0.34, 1⟩ : Params ℝ) ⟨[], []⟩).bonds := by
    rw [create_eq]
    simp only
    rw [intraList_single_ring]
    exact List.mem_append_left _ (List.mem_cons_self _ _)
  ⟨hmem, bonds_valid_and_distinct ⟨Real.pi, Real.sqrt 3, Real.cos, Real.sin⟩
    (⟨1, 6, 0.246, 0.142, 0.34, 1⟩ : Params ℝ) ⟨[], []⟩ (0, 1) hmem⟩

/-- C2: with `A = lengthSegments * 2 * n`, every bond `(u, v)` emitted by the
intralayer pass has `u / A = v / A`, every bond emitted by the interlayer pass has
`v / A = u / A + 1`, and the tag `(bond.first / A) != (bond.second / A)` that `display`
derives is `false` on the intralayer bonds, which come first in the bond list, and
`true` on the interlayer bonds, which follow them.  This holds for all parameter
values, in particular for `layers ≥ 1`, `n ≥ 1`, `lengthSegments ≥ 1`. -/
theorem bond_layer_tags {F : Type} [Field F] (c : Numerics F) (p : Params F)
    (s : Globals F) :
    (∀ b ∈ intraBonds p,
      Int.tdiv b.1 (p.lengthSegments * 2 * p.n) = Int.tdiv b.2 (p.lengthSegments * 2 * p.n)) ∧
    (∀ b ∈ interBonds p,
      Int.tdiv b.2 (p.lengthSegments * 2 * p.n)
        = Int.tdiv b.1 (p.lengthSegments * 2 * p.n) + 1) ∧
    (createMultiWalledNanotube c p s).bonds = intraBonds p ++ interBonds p ∧
    (createMultiWalledNanotube c p s).bonds.map (isInterlayer p)
      = List.replicate (intraBonds p).length false
        ++ List.replicate (interBonds p).length true := by
  rw [create_eq, intraBonds_eq, interBonds_eq]
  refine ⟨intraList_same_layer p, interList_next_layer p, rfl, ?_⟩
  simp only [List.map_append]
  congr 1
  · rw [List.eq_replicate_iff]
    refine ⟨List.length_map _ _, ?_⟩
    intro t ht
    obtain ⟨b, hb, rfl⟩ := List.mem_map.1 ht
    simp [isInterlayer, intraList_same_layer p b hb]
  · rw [List.eq_replicate_iff]
    refine ⟨List.length_map _ _, ?_⟩
    intro t ht
    obtain ⟨b, hb, rfl⟩ := List.mem_map.1 ht
    simp [isInterlayer, interList_next_layer p b hb]

/-- C3: for `layers ≥ 1`, `n ≥ 1`, `lengthSegments ≥ 1`, whatever `a`, `bondLength`,
`interlayerDistance` and the previous contents of the vectors are, the atom sequence
after `createMultiWalledNanotube` has exactly `layers * lengthSegments * 2 * n`
elements. -/
theorem atom_count {F : Type} [Field F] (c : Numerics F) (p : Params F) (s : Globals F)
    (hl : 1 ≤ p.layers) (hn : 1 ≤ p.n) (hs : 1 ≤ p.lengthSegments) :
    ((createMultiWalledNanotube c p s).atoms.length : Int)
      = p.layers * p.lengthSegments * 2 * p.n := by
  rw [create_eq]
  exact length_atomList c p (by omega) (by omega) (by omega)

/-- Witness for C3: one layer, `n = 6`, one segment give 12 atoms. -/
theorem atom_count_witness :
    (1 : Int) ≤ 1 ∧ (1 : Int) ≤ 6 ∧ (1 : Int) ≤ 1 ∧
    ((createMultiWalledNanotube ⟨Real.pi, Real.sqrt 3, Real.cos, Real.sin⟩
        (⟨1, 6, 0.246, 0.142, 0.34, 1⟩ : Params ℝ) ⟨[], []⟩).atoms.length : Int)
      = 1 * 1 * 2 * 6 :=
  ⟨by decide, by decide, by decide,
    atom_count ⟨Real.pi, Real.sqrt 3, Real.cos, Real.sin⟩ (⟨1, 6, 0.246, 0.142, 0.34, 1⟩ : Params ℝ) ⟨[], []⟩
      (by decide) (by decide) (by decide)⟩

/-- C4: over real arithmetic (`PI = π`, `SQRT3 = √3`, the real `cos` and `sin`), for
every layer `L` in `[0, layers)`, segment `i` in `[0, lengthSegments)` and site `j` in
`[0, 2n)`, the atom stored at flat index `L * lengthSegments * 2n + i * 2n + j` is the
atom the specification describes for `(L, i, j)` (`specAtom`): with
`R = n a / (2π) + L * interlayerDistance`, `scaledA = 2π R / n`,
`x_sheet = (j div 2) * scaledA (+ scaledA / 2 for odd j)`,
`y_sheet = i √3 bondLength (+ bondLength √3 / 2 for odd j)` and `θ = x_sheet / R` it is
`(R cos θ, R sin θ, y_sheet - lengthSegments √3 bondLength / 2)`.  The radius the code
uses for layer `L` is that `R`, and the radius of layer `L + 1` exceeds it by exactly
`interlayerDistance`. -/
theorem atom_at_flat_index (p : Params ℝ) (s : Globals ℝ) (L i j : Int)
    (hL : 0 ≤ L ∧ L < p.layers) (hi : 0 ≤ i ∧ i < p.lengthSegments)
    (hj : 0 ≤ j ∧ j < 2 * p.n) :
    (createMultiWalledNanotube ⟨Real.pi, Real.sqrt 3, Real.cos, Real.sin⟩ p s).atoms[
        (L * p.lengthSegments * 2 * p.n + i * 2 * p.n + j).toNat]?
      = some (specAtom ⟨Real.pi, Real.sqrt 3, Real.cos, Real.sin⟩ p L i j) ∧
    layerRadius ⟨Real.pi, Real.sqrt 3, Real.cos, Real.sin⟩ p L
      = ((p.n : ℝ) * p.a) / (2 * Real.pi) + (L : ℝ) * p.interlayerDistance ∧
    layerRadius ⟨Real.pi, Real.sqrt 3, Real.cos, Real.sin⟩ p (L + 1)
      - layerRadius ⟨Real.pi, Real.sqrt 3, Real.cos, Real.sin⟩ p L
      = p.interlayerDistance := by
  refine ⟨?_, rfl, layerRadius_succ _ p L⟩
  rw [create_eq, ← atomAt_eq_specAtom _ p L i j hj.1]
  exact atomList_getElem? _ p L i j hL.1 hL.2 hi.1 hi.2 hj.1 hj.2

/-- Witness for C4 on the parameter values of the source, at layer 1, segment 2,
site 3. -/
theorem atom_at_flat_index_witness :
    ((0 : Int) ≤ 1 ∧ (1 : Int) < 3) ∧ ((0 : Int) ≤ 2 ∧ (2 : Int) < 20) ∧
    ((0 : Int) ≤ 3 ∧ (3 : Int) < 2 * 6) ∧
    (createMultiWalledNanotube ⟨Real.pi, Real.sqrt 3, Real.cos, Real.sin⟩
        (⟨3, 6, 0.246, 0.142, 0.34, 20⟩ : Params ℝ) ⟨[], []⟩).atoms[
        ((1 : Int) * 20 * 2 * 6 + 2 * 2 * 6 + 3).toNat]?
      = some (specAtom ⟨Real.pi, Real.sqrt 3, Real.cos, Real.sin⟩
          (⟨3, 6, 0.246, 0.142, 0.34, 20⟩ : Params ℝ) 1 2 3) :=
  ⟨by decide, by decide, by decide,
    (atom_at_flat_index (⟨3, 6, 0.246, 0.142, 0.34, 20⟩ : Params ℝ) ⟨[], []⟩ 1 2 3
      (by decide) (by decide) (by decide)).1⟩

/-- C5 (as the code behaves): a call with a non-positive `layers`, `n`, `a`,
`bondLength`, `lengthSegments` or `interlayerDistance` is not rejected.  It is carried
out like any other call: the previous contents of both sequences are discarded and the
result is what generation from empty sequences gives; when `layers`, `n` or
`lengthSegments` is non-positive, both sequences end up empty. -/
theorem invalid_parameters_not_rejected {F : Type} [LinearOrderedField F]
    (c : Numerics F) (p : Params F) (s : Globals F)
    (_h : p.layers ≤ 0 ∨ p.n ≤ 0 ∨ p.a ≤ 0 ∨ p.bondLength ≤ 0 ∨ p.lengthSegments ≤ 0 ∨
      p.interlayerDistance ≤ 0) :
    createMultiWalledNanotube c p s = createMultiWalledNanotube c p (emptyGlobals F) ∧
    (p.layers ≤ 0 ∨ p.n ≤ 0 ∨ p.lengthSegments ≤ 0 →
      createMultiWalledNanotube c p s = ⟨[], []⟩) :=
  ⟨by rw [create_eq, create_eq], create_of_nonpos c p s⟩

/-- Witness for C5 (as the code behaves): `layers = 0` on vectors that hold an atom and
a bond. -/
theorem invalid_parameters_not_rejected_witness :
    ((0 : Int) ≤ 0 ∨ (6 : Int) ≤ 0 ∨ (0.246 : ℝ) ≤ 0 ∨ (0.142 : ℝ) ≤ 0 ∨ (20 : Int) ≤ 0 ∨
      (0.34 : ℝ) ≤ 0) ∧
    createMultiWalledNanotube ⟨Real.pi, Real.sqrt 3, Real.cos, Real.sin⟩
        (⟨0, 6, 0.246, 0.142, 0.34, 20⟩ : Params ℝ) ⟨[⟨1, 0, 0⟩], [(0, 0)]⟩
      = createMultiWalledNanotube ⟨Real.pi, Real.sqrt 3, Real.cos, Real.sin⟩
        (⟨0, 6, 0.246, 0.142, 0.34, 20⟩ : Params ℝ) (emptyGlobals ℝ) :=
  ⟨Or.inl (le_refl 0),
    (invalid_parameters_not_rejected ⟨Real.pi, Real.sqrt 3, Real.cos, Real.sin⟩
      (⟨0, 6, 0.246, 0.142, 0.34, 20⟩ : Params ℝ) ⟨[⟨1, 0, 0⟩], [(0, 0)]⟩
      (Or.inl (le_refl 0))).1⟩

/-- C5 fails as stated: with `layers = 0` the call made on the output of a valid
generation (one layer, `n = 6`, one segment: 12 atoms) is not rejected, and it does not
leave that output unchanged. -/
theorem zero_layers_overwrites_output :
    createMultiWalledNanotube ⟨Real.pi, Real.sqrt 3, Real.cos, Real.sin⟩ (⟨0, 6, 0.246, 0.142, 0.34, 20⟩ : Params ℝ)
        (createMultiWalledNanotube ⟨Real.pi, Real.sqrt 3, Real.cos, Real.sin⟩ (⟨1, 6, 0.246, 0.142, 0.34, 1⟩ : Params ℝ) ⟨[], []⟩)
      ≠ createMultiWalledNanotube ⟨Real.pi, Real.sqrt 3, Real.cos, Real.sin⟩ (⟨1, 6, 0.246, 0.142, 0.34, 1⟩ : Params ℝ) ⟨[], []⟩ := by
  intro h
  rw [create_of_nonpos _ _ _ (Or.inl (le_refl 0))] at h
  have h1 := congrArg (fun g => (g.atoms.length : Int)) h
  simp only at h1
  rw [create_eq] at h1
  simp only at h1
  rw [length_atomList _ _ (by decide) (by decide) (by decide)] at h1
  exact absurd h1 (by decide)

/-- C6: the result of `createMultiWalledNanotube` does not depend on what the vectors
held before (it equals the result from empty vectors, so nothing survives and nothing
is appended to), and a second call with the same parameters returns the same atom
sequence and the same bond list as the first. -/
theorem create_replaces_output {F : Type} [Field F] (c : Numerics F) (p : Params F)
    (s s' : Globals F) :
    createMultiWalledNanotube c p s = createMultiWalledNanotube c p s' ∧
    createMultiWalledNanotube c p s = createMultiWalledNanotube c p (emptyGlobals F) ∧
    createMultiWalledNanotube c p (createMultiWalledNanotube c p s)
      = createMultiWalledNanotube c p s := by
  simp only [create_eq, and_self]

/-- C7 (as the code behaves): for `layers = 1`, `n = 6`, `lengthSegments = 1`
(`a = 0.246`, `bondLength = 0.142`, `interlayerDistance = 0.34`) the bond list consists
of exactly 12 bonds, one ring bond per site: `(j, j + 1)` at every site `j < 11` (the
same-row rule at the six even sites, the odd-site rule at the odd ones) and the wrap
`(11, 0)`.  Both endpoints of every bond lie in segment 0, so there is no axial bond,
and there is no interlayer bond. -/
theorem single_ring_bonds (s : Globals ℝ) :
    (createMultiWalledNanotube ⟨Real.pi, Real.sqrt 3, Real.cos, Real.sin⟩
        (⟨1, 6, 0.246, 0.142, 0.34, 1⟩ : Params ℝ) s).bonds
      = [(0, 1), (1, 2), (2, 3), (3, 4), (4, 5), (5, 6), (6, 7), (7, 8), (8, 9), (9, 10),
         (10, 11), (11, 0)] ∧
    (createMultiWalledNanotube ⟨Real.pi, Real.sqrt 3, Real.cos, Real.sin⟩
        (⟨1, 6, 0.246, 0.142, 0.34, 1⟩ : Params ℝ) s).bonds.length = 12 ∧
    (∀ b ∈ (createMultiWalledNanotube ⟨Real.pi, Real.sqrt 3, Real.cos, Real.sin⟩
        (⟨1, 6, 0.246, 0.142, 0.34, 1⟩ : Params ℝ) s).bonds,
      Int.tdiv b.1 (2 * 6) = 0 ∧ Int.tdiv b.2 (2 * 6) = 0 ∧
      isInterlayer (⟨1, 6, 0.246, 0.142, 0.34, 1⟩ : Params ℝ) b = false) ∧
    interBonds (⟨1, 6, 0.246, 0.142, 0.34, 1⟩ : Params ℝ) = [] := by
  have hb : (createMultiWalledNanotube ⟨Real.pi, Real.sqrt 3, Real.cos, Real.sin⟩
        (⟨1, 6, 0.246, 0.142, 0.34, 1⟩ : Params ℝ) s).bonds
      = [(0, 1), (1, 2), (2, 3), (3, 4), (4, 5), (5, 6), (6, 7), (7, 8), (8, 9), (9, 10),
         (10, 11), (11, 0)] := by
    rw [create_eq]
    simp only
    rw [intraList_single_ring, interList_single_layer _ rfl]
    rfl
  rw [hb, interBonds_eq, interList_single_layer _ rfl]
  refine ⟨rfl, rfl, ?_, rfl⟩
  intro b hb'
  simp only [List.mem_cons, List.mem_singleton, List.not_mem_nil, or_false] at hb'
  rcases hb' with rfl | rfl | rfl | rfl | rfl | rfl | rfl | rfl | rfl | rfl | rfl | rfl <;>
    exact ⟨rfl, rfl, rfl⟩

/-- C7 fails as stated: for `layers = 1`, `n = 6`, `lengthSegments = 1` the bond list
does not have 6 elements (it has 12). -/
theorem one_segment_has_twelve_bonds :
    (createMultiWalledNanotube ⟨Real.pi, Real.sqrt 3, Real.cos, Real.sin⟩
        (⟨1, 6, 0.246, 0.142, 0.34, 1⟩ : Params ℝ) ⟨[], []⟩).bonds.length ≠ 6 := by
  rw [create_eq]
  simp only
  rw [intraList_single_ring, interList_single_layer _ rfl]
  decide

/-- C8: for `layers ≥ 1`, `n ≥ 1`, `lengthSegments ≥ 1` the interlayer pass emits
`(layers - 1) * ceil(lengthSegments / 2) * ceil(2n / 2)` bonds: the bonds of the adjacent
pairs `(L, L + 1)`, `0 ≤ L < layers - 1`, one pair after the other, each pair
contributing the `ceil(lengthSegments / 2) * n` bonds at its even segments and even
sites; for `layers = 3` that is
`2 * ceil(lengthSegments / 2) * ceil(2n / 2)` and for `layers = 1` there is none.  The
interlayer bonds are exactly the pairs joining the atoms at the same even segment `i`
and even site `j` of layers `L` and `L + 1`. -/
theorem interlayer_bond_count {F : Type} (p : Params F)
    (hl : 1 ≤ p.layers) (hn : 1 ≤ p.n) (hs : 1 ≤ p.lengthSegments) :
    ((interBonds p).length : Int)
      = (p.layers - 1) * ⌈(p.lengthSegments : ℚ) / 2⌉ * ⌈((2 * p.n : Int) : ℚ) / 2⌉ ∧
    interBonds p = (upTo 0 (p.layers - 1)).flatMap (fun L => pairBonds p L) ∧
    (∀ L, ((pairBonds p L).length : Int) = ⌈(p.lengthSegments : ℚ) / 2⌉ * p.n) ∧
    (∀ L b, b ∈ pairBonds p L ↔
      ∃ i j, (0 ≤ i ∧ i < p.lengthSegments ∧ i % 2 = 0) ∧ (0 ≤ j ∧ j < 2 * p.n ∧ j % 2 = 0) ∧
        b = (L * p.lengthSegments * 2 * p.n + i * 2 * p.n + j,
             (L + 1) * p.lengthSegments * 2 * p.n + i * 2 * p.n + j)) ∧
    (p.layers = 3 → ((interBonds p).length : Int)
      = 2 * ⌈(p.lengthSegments : ℚ) / 2⌉ * ⌈((2 * p.n : Int) : ℚ) / 2⌉) ∧
    (p.layers = 1 → interBonds p = []) ∧
    (∀ b, b ∈ interBonds p ↔
      ∃ L i j, (0 ≤ L ∧ L < p.layers - 1) ∧ (0 ≤ i ∧ i < p.lengthSegments ∧ i % 2 = 0) ∧
        (0 ≤ j ∧ j < 2 * p.n ∧ j % 2 = 0) ∧
        b = (L * p.lengthSegments * 2 * p.n + i * 2 * p.n + j,
             (L + 1) * p.lengthSegments * 2 * p.n + i * 2 * p.n + j)) := by
  have hlen := length_interList p hl (by omega) (by omega)
  have hc : ⌈((2 * p.n : Int) : ℚ) / 2⌉ = p.n := by
    rw [ceil_half]; omega
  rw [interBonds_eq, ceil_half, hc]
  refine ⟨hlen, interList_eq_flatMap p hl, ?_, ?_, ?_, ?_, ?_⟩
  · intro L
    exact length_pairBonds p L (by omega) (by omega)
  · intro L b
    exact mem_pairBonds p L b
  · intro h3
    rw [hlen, h3]
    norm_num
  · intro h1
    apply List.eq_nil_of_length_eq_zero
    have : ((interList p).length : Int) = 0 := by rw [hlen, h1]; simp
    exact_mod_cast this
  · intro b
    exact mem_interList_iff p b

/-- Witness for C8 on the parameter values of the source. -/
theorem interlayer_bond_count_witness :
    (1 : Int) ≤ 3 ∧ (1 : Int) ≤ 6 ∧ (1 : Int) ≤ 20 ∧
    ((interBonds (⟨3, 6, 0.246, 0.142, 0.34, 20⟩ : Params ℝ)).length : Int)
      = (3 - 1) * ⌈((20 : Int) : ℚ) / 2⌉ * ⌈((2 * 6 : Int) : ℚ) / 2⌉ :=
  ⟨by decide, by decide, by decide,
    (interlayer_bond_count (⟨3, 6, 0.246, 0.142, 0.34, 20⟩ : Params ℝ)
      (by decide) (by decide) (by decide)).1⟩

/-- C9 (as the code behaves): for `n ≥ 2`, every atom of a segment `i` with
`0 < i < lengthSegments - 1` (which needs `lengthSegments ≥ 3`) is an endpoint of
exactly 6 intralayer bonds when its site `j` is even and of exactly 4 when `j` is odd,
counting the bonds in which it is the first or the second index. -/
theorem inner_atom_degree {F : Type} (p : Params F) (L i j : Int) (hn : 2 ≤ p.n)
    (hL : 0 ≤ L ∧ L < p.layers) (hi : 0 < i ∧ i < p.lengthSegments - 1)
    (hj : 0 ≤ j ∧ j < 2 * p.n) :
    degree (intraBonds p) (L * p.lengthSegments * 2 * p.n + i * 2 * p.n + j)
      = if j % 2 = 0 then 6 else 4 := by
  rw [intraBonds_eq]
  exact degree_inner p L i j hn hL hi hj

/-- Witness for C9 (as the code behaves) on the parameter values of the source, at
layer 1, segment 5, site 4. -/
theorem inner_atom_degree_witness :
    (2 : Int) ≤ 6 ∧ ((0 : Int) ≤ 1 ∧ (1 : Int) < 3) ∧ ((0 : Int) < 5 ∧ (5 : Int) < 20 - 1) ∧
    ((0 : Int) ≤ 4 ∧ (4 : Int) < 2 * 6) ∧
    degree (intraBonds (⟨3, 6, 0.246, 0.142, 0.34, 20⟩ : Params ℝ))
        (1 * 20 * 2 * 6 + 5 * 2 * 6 + 4)
      = if (4 : Int) % 2 = 0 then 6 else 4 :=
  ⟨by decide, by decide, by decide, by decide,
    inner_atom_degree (⟨3, 6, 0.246, 0.142, 0.34, 20⟩ : Params ℝ) 1 5 4
      (by decide) (by decide) (by decide) (by decide)⟩

/-- C9 fails as stated: for one layer, `n = 2`, `lengthSegments = 3`, the atom at
segment 1, site 0 (flat index 4) is an endpoint of 6 intralayer bonds, not 3. -/
theorem inner_even_site_has_six_bonds :
    degree (intraBonds (⟨1, 2, 0.246, 0.142, 0.34, 3⟩ : Params ℝ))
        (0 * 3 * 2 * 2 + 1 * 2 * 2 + 0) = 6 ∧
    degree (intraBonds (⟨1, 2, 0.246, 0.142, 0.34, 3⟩ : Params ℝ))
        (0 * 3 * 2 * 2 + 1 * 2 * 2 + 0) ≠ 3 := by
  rw [intraBonds_eq]
  have h : degree (intraList (⟨1, 2, 0.246, 0.142, 0.34, 3⟩ : Params ℝ))
      (0 * 3 * 2 * 2 + 1 * 2 * 2 + 0) = 6 := by rfl
  rw [h]
  exact ⟨rfl, by decide⟩

/-- C10: for `layers ≥ 1`, `n ≥ 1`, `lengthSegments ≥ 1` the intralayer pass emits
exactly `layers * (2n * lengthSegments + 3n * (lengthSegments - 1))` bonds, the bond
list is the intralayer bonds followed by the interlayer bonds, and its total length is
`layers * (2n * lengthSegments + 3n * (lengthSegments - 1))
  + (layers - 1) * ceil(lengthSegments / 2) * n`. -/
theorem bond_counts {F : Type} [Field F] (c : Numerics F) (p : Params F) (s : Globals F)
    (hl : 1 ≤ p.layers) (hn : 1 ≤ p.n) (hs : 1 ≤ p.lengthSegments) :
    ((intraBonds p).length : Int)
      = p.layers * (2 * p.n * p.lengthSegments + 3 * p.n * (p.lengthSegments - 1)) ∧
    (createMultiWalledNanotube c p s).bonds = intraBonds p ++ interBonds p ∧
    ((createMultiWalledNanotube c p s).bonds.length : Int)
      = p.layers * (2 * p.n * p.lengthSegments + 3 * p.n * (p.lengthSegments - 1))
        + (p.layers - 1) * ⌈(p.lengthSegments : ℚ) / 2⌉ * p.n := by
  have h1 := length_intraList p (by omega) (by omega) hs
  have h2 := length_interList p hl (by omega) (by omega)
  rw [create_eq, intraBonds_eq, interBonds_eq, ceil_half]
  refine ⟨h1, rfl, ?_⟩
  simp only [List.length_append]
  push_cast
  rw [h1, h2]

/-- Witness for C10 on the parameter values of the source: 1746 intralayer bonds
followed by 120 interlayer bonds. -/
theorem bond_counts_witness :
    (1 : Int) ≤ 3 ∧ (1 : Int) ≤ 6 ∧ (1 : Int) ≤ 20 ∧
    ((intraBonds (⟨3, 6, 0.246, 0.142, 0.34, 20⟩ : Params ℝ)).length : Int)
      = 3 * (2 * 6 * 20 + 3 * 6 * (20 - 1)) ∧
    ((createMultiWalledNanotube ⟨Real.pi, Real.sqrt 3, Real.cos, Real.sin⟩
        (⟨3, 6, 0.246, 0.142, 0.34, 20⟩ : Params ℝ) ⟨[], []⟩).bonds.length : Int)
      = 3 * (2 * 6 * 20 + 3 * 6 * (20 - 1)) + (3 - 1) * ⌈((20 : Int) : ℚ) / 2⌉ * 6 :=
  ⟨by decide, by decide, by decide,
    (bond_counts ⟨Real.pi, Real.sqrt 3, Real.cos, Real.sin⟩ (⟨3, 6, 0.246, 0.142, 0.34, 20⟩ : Params ℝ) ⟨[], []⟩
      (by decide) (by decide) (by decide)).1,
    (bond_counts ⟨Real.pi, Real.sqrt 3, Real.cos, Real.sin⟩ (⟨3, 6, 0.246, 0.142, 0.34, 20⟩ : Params ℝ) ⟨[], []⟩
      (by decide) (by decide) (by decide)).2.2⟩

end MWCNT
